import Mathlib

/-!
Verification of the circles-core per-account transaction sequencer, the
generic eventual-consistency poller and the unit conversion helpers.

Pure functions are shallowly embedded from src/src/utils.js.  The per-key
transaction queue (module common/queue) and the generic retry loop
(module common/loop) belong to this repository but are outside src/ —
only their callers are visible — so they are modelled from the
specification, as marked in the corresponding doc comments.
-/

namespace CirclesCore

/-- Number of Freckles per Circle: web3's fromWei / toWei use the ether scale 10^18. -/
def freckleScale : Nat := 10 ^ 18

/-- Decimal digit characters of a natural number, most significant digit
first, rendering 0 as "0"; models the decimal integer strings handled by
web3.utils.fromWei and toWei. -/
def decChars (n : Nat) : List Char :=
  if n = 0 then ['0']
  else ((Nat.digits 10 n).reverse).map fun d => Char.ofNat (d + 48)

/-- Fractional part rendering of web3.utils.fromWei: the remainder
zero-padded on the left to 18 digits, trailing zeros removed. -/
def fracChars (r : Nat) : List Char :=
  let base := decChars r
  let padded := List.replicate (18 - base.length) '0' ++ base
  (padded.reverse.dropWhile fun c => c == '0').reverse

/-- Characters of the decimal string returned by web3.utils.fromWei(v, ether)
for a Freckles amount v: the integer part, then a dot and the fractional
part when v is not a whole multiple of 10^18.  src/utils.js fromFreckles
feeds exactly this string to parseInt. -/
def fromWeiChars (v : Nat) : List Char :=
  decChars (v / freckleScale) ++
    (if v % freckleScale = 0 then [] else '.' :: fracChars (v % freckleScale))

/-- JavaScript parseInt(s, 10) on the strings arising here: read the leading
run of decimal digit characters and interpret it in base 10; parsing stops
at the first non-digit (in particular at the dot of a fractional string). -/
def parseIntDec (s : List Char) : Nat :=
  (s.takeWhile fun c => c.isDigit).foldl (fun acc c => acc * 10 + (c.toNat - 48)) 0

/-- toFreckles from src/utils.js (line 284): web3.utils.toWei maps a whole
Circles amount n to the Freckles amount n * 10^18; we track the numeric
value denoted by the produced decimal string. -/
def toFreckles (n : Nat) : Nat := n * freckleScale

/-- fromFreckles from src/utils.js (line 295):
parseInt(web3.utils.fromWei(value, ether), 10). -/
def fromFreckles (v : Nat) : Nat := parseIntDec (fromWeiChars v)

theorem char_isDigit_of_lt {d : Nat} (hd : d < 10) :
    (Char.ofNat (d + 48)).isDigit = true := by
  interval_cases d <;> decide

theorem char_val_of_lt {d : Nat} (hd : d < 10) :
    (Char.ofNat (d + 48)).toNat - 48 = d := by
  interval_cases d <;> decide

theorem decChars_digit {n : Nat} {c : Char} (hc : c ∈ decChars n) :
    c.isDigit = true := by
  unfold decChars at hc
  split at hc
  · simp at hc
    subst hc
    decide
  · rcases List.mem_map.mp hc with ⟨d, hd, rfl⟩
    have : d < 10 := Nat.digits_lt_base (by norm_num) (List.mem_reverse.mp hd)
    exact char_isDigit_of_lt this

theorem takeWhile_append_of_all {p : Char → Bool} :
    ∀ (l r : List Char), (∀ c ∈ l, p c = true) →
      (∀ c, r.head? = some c → p c = false) → (l ++ r).takeWhile p = l := by
  intro l r hl hr
  induction l with
  | nil =>
    cases r with
    | nil => rfl
    | cons c r => simp [List.takeWhile_cons, hr c rfl]
  | cons a l ih =>
    simp only [List.cons_append, List.takeWhile_cons, hl a (by simp)]
    simp [ih fun c hc => hl c (by simp [hc])]

theorem foldl_digitChars (L : List Nat) (hL : ∀ d ∈ L, d < 10) (a : Nat) :
    (L.reverse.map fun d => Char.ofNat (d + 48)).foldl
        (fun acc c => acc * 10 + (c.toNat - 48)) a
      = a * 10 ^ L.length + Nat.ofDigits 10 L := by
  induction L generalizing a with
  | nil => simp
  | cons d L ih =>
    have hd : d < 10 := hL d (by simp)
    have hL' : ∀ x ∈ L, x < 10 := fun x hx => hL x (by simp [hx])
    simp only [List.reverse_cons, List.map_append, List.map_cons, List.map_nil,
      List.foldl_append, List.foldl_cons, List.foldl_nil]
    rw [ih hL' a, char_val_of_lt hd, Nat.ofDigits_cons, List.length_cons, pow_succ]
    ring

theorem parse_decChars (n : Nat) (rest : List Char)
    (hrest : ∀ c, rest.head? = some c → c.isDigit = false) :
    parseIntDec (decChars n ++ rest) = n := by
  unfold parseIntDec
  rw [takeWhile_append_of_all (decChars n) rest (fun c hc => decChars_digit hc) hrest]
  unfold decChars
  split
  · subst_vars
    decide
  · rw [foldl_digitChars (Nat.digits 10 n)
      (fun d hd => Nat.digits_lt_base (by norm_num) hd) 0]
    simp [Nat.ofDigits_digits]

theorem fromFreckles_eq_div (v : Nat) : fromFreckles v = v / freckleScale := by
  unfold fromFreckles fromWeiChars
  apply parse_decChars
  intro c hc
  split at hc
  · simp at hc
  · simp only [List.head?_cons, Option.some.injEq] at hc
    subst hc
    decide

/-- C10: round trip and truncation of the unit conversion.  For every
non-negative integer n, fromFreckles (toFreckles n) = n; and because
fromFreckles applies parseInt with radix 10 to the ether-denominated
string, it truncates toward zero — fromFreckles v is the whole-Circles
part v / 10^18, so for every Freckles value that is not a whole multiple
of 10^18 the round trip is not the identity. -/
theorem freckles_roundtrip_truncation :
    (∀ n : Nat, fromFreckles (toFreckles n) = n) ∧
    (∀ v : Nat, fromFreckles v = v / freckleScale) ∧
    (∀ v : Nat, v % freckleScale ≠ 0 → toFreckles (fromFreckles v) ≠ v) := by
  refine ⟨?_, fromFreckles_eq_div, ?_⟩
  · intro n
    rw [fromFreckles_eq_div, toFreckles, Nat.mul_div_cancel]
    norm_num [freckleScale]
  · intro v hv
    rw [fromFreckles_eq_div, toFreckles]
    intro h
    apply hv
    have hdm := Nat.div_add_mod v freckleScale
    simp only [freckleScale] at h hdm ⊢
    omega

/-- Witness for C10 at concrete inputs n = 7 and v = 3 * 10^18 + 5. -/
theorem freckles_roundtrip_truncation_witness :
    fromFreckles (toFreckles 7) = 7 ∧
    ((3 : Nat) * freckleScale + 5) % freckleScale ≠ 0 ∧
    toFreckles (fromFreckles (3 * freckleScale + 5)) ≠ 3 * freckleScale + 5 := by
  refine ⟨freckles_roundtrip_truncation.1 7, ?_, ?_⟩
  · norm_num [freckleScale]
  · exact freckles_roundtrip_truncation.2.2 _ (by norm_num [freckleScale])

/-- Record stored while a submission is in flight, as passed to
transactionQueue.lockTransaction in src/utils.js (lines 430, 565):
the ticket that owns the submission, the sequence number (nonce) it used
and the relayer's confirmation handle (txHash). -/
structure LockRec where
  ticketId : Nat
  nonce : Nat
  txHash : Nat
deriving DecidableEq, Repr

/-- Modelled from the spec: per-key queue state of the sequencer
(common/queue is not under src/; spec section 3): an ordered FIFO waiting
line of ticketIds and at most one lock record. -/
structure KeyState where
  waiting : List Nat
  lock : Option LockRec
deriving DecidableEq, Repr

/-- Empty per-key state, created lazily on first use. -/
def KeyState.empty : KeyState := ⟨[], none⟩

/-- Modelled from the spec: the in-memory TransactionQueue instance
(common/queue is not under src/).  One queue-state record per key plus the
monotonically increasing ticket counter. -/
structure TransactionQueue where
  entries : Nat → KeyState
  nextTicketId : Nat

/-- Initial queue: no tickets anywhere. -/
def TransactionQueue.init : TransactionQueue := ⟨fun _ => KeyState.empty, 0⟩

/-- Pointwise update of one key's state. -/
def TransactionQueue.update (q : TransactionQueue) (k : Nat)
    (f : KeyState → KeyState) : TransactionQueue :=
  { q with entries := fun j => if j = k then f (q.entries j) else q.entries j }

/-- Modelled from the spec: transactionQueue.queue(safeAddress) /
enqueue(key) appends a fresh ticket (monotonically increasing id) to the
key's waiting line and returns the ticket (spec section 4.1). -/
def TransactionQueue.queue (q : TransactionQueue) (k : Nat) :
    TransactionQueue × Nat :=
  ({ q.update k (fun st => { st with waiting := st.waiting ++ [q.nextTicketId] }) with
      nextTicketId := q.nextTicketId + 1 },
    q.nextTicketId)

/-- Modelled from the spec: whether the key holds a lock record. -/
def isLocked (q : TransactionQueue) (k : Nat) : Bool :=
  (q.entries k).lock.isSome

/-- Modelled from the spec: whether the ticket is at the head of the key's
waiting line. -/
def isNextInQueue (q : TransactionQueue) (k t : Nat) : Bool :=
  (q.entries k).waiting.head? == some t

/-- Modelled from the spec: the lock record of the currently in-flight
submission, read by the poll attempt in src/utils.js line 190. -/
def getCurrentTransaction (q : TransactionQueue) (k : Nat) : Option LockRec :=
  (q.entries k).lock

/-- Modelled from the spec: lock(key, record) sets the key's lock record
(spec section 4.1). -/
def lockTransaction (q : TransactionQueue) (k : Nat) (r : LockRec) :
    TransactionQueue :=
  q.update k fun st => { st with lock := some r }

/-- Modelled from the spec: unlock(key, ticketId) idempotently removes the
lock naming this ticket; a lock held by a different ticket, or an absent
lock, is left untouched (spec sections 4.1 and 7: removal is idempotent
and local to the named ticket). -/
def unlockTransaction (q : TransactionQueue) (k t : Nat) : TransactionQueue :=
  q.update k fun st =>
    match st.lock with
    | some r => if r.ticketId = t then { st with lock := none } else st
    | none => st

/-- Modelled from the spec: unqueue / retire(key, ticketId) idempotently
removes the named ticket from the key's waiting line and nothing else. -/
def unqueue (q : TransactionQueue) (k t : Nat) : TransactionQueue :=
  q.update k fun st => { st with waiting := st.waiting.filter fun x => x ≠ t }

/-- One poll attempt of waitForPendingTransactions (src/utils.js lines
179-215).  If the key is unlocked the attempt returns whether the caller's
ticket is next in the queue; otherwise it reads the current lock record and
asks the relayer whether that submission finished.  probe models the
relayer GET: none means the request threw, some b means it answered with
results.length == 1 iff b.  On a positive answer the attempt unlocks and
unqueues the recorded ticket; in every locked case it returns false. -/
def waitAttempt (q : TransactionQueue) (k t : Nat)
    (probe : LockRec → Option Bool) : TransactionQueue × Bool :=
  if isLocked q k = false then (q, isNextInQueue q k t)
  else
    match getCurrentTransaction q k with
    | none => (q, false)
    | some cur =>
      match probe cur with
      | some true =>
        ((unqueue (unlockTransaction q k cur.ticketId) k cur.ticketId), false)
      | _ => (q, false)

/-- The submit phase of executeSafeTx / executeTokenSafeTx (src/utils.js
lines 410-442 and 545-577): POST the signed transaction to the relayer;
on success (postResult = some txHash) register the lock record and return
the txHash; on failure unlock and unqueue the caller's own ticket and
return null (none). -/
def submitPhase (q : TransactionQueue) (k t nonce : Nat)
    (postResult : Option Nat) : TransactionQueue × Option Nat :=
  match postResult with
  | some txHash => (lockTransaction q k ⟨t, nonce, txHash⟩, some txHash)
  | none => (unqueue (unlockTransaction q k t) k t, none)

/-- requestNonce (src/utils.js lines 230-254): ask the relayer for the most
recent transaction of the Safe; relayerResp none models the request
throwing, some none an empty result list, some (some n) the latest nonce n.
On the first two the code falls back to the Safe contract nonce (already
incremented); otherwise it returns parseInt(nonce, 10) + 1. -/
def requestNonce (relayerResp : Option (Option Nat)) (contractNonce : Nat) : Nat :=
  match relayerResp with
  | some (some n) => n + 1
  | some none => contractNonce
  | none => contractNonce

theorem tq_ext {q q' : TransactionQueue}
    (he : ∀ j, q.entries j = q'.entries j)
    (hn : q.nextTicketId = q'.nextTicketId) : q = q' := by
  cases q
  cases q'
  simp only [TransactionQueue.mk.injEq]
  exact ⟨funext he, hn⟩

theorem update_entries_same (q : TransactionQueue) (k : Nat) (f : KeyState → KeyState) :
    (q.update k f).entries k = f (q.entries k) := by
  simp [TransactionQueue.update]

theorem update_entries_other (q : TransactionQueue) (k : Nat) (f : KeyState → KeyState)
    {j : Nat} (h : j ≠ k) : (q.update k f).entries j = q.entries j := by
  simp [TransactionQueue.update, h]

theorem filter_ne_idem (t : Nat) (l : List Nat) :
    ((l.filter fun x => x ≠ t).filter fun x => x ≠ t) = l.filter fun x => x ≠ t := by
  induction l with
  | nil => rfl
  | cons a l ih => by_cases ha : a = t <;> simp [ha, ih]

/-- Concrete queue for counterexamples and witnesses: key 0 holds tickets
7 then 8 with ticket 7's submission locked in flight. -/
def demoQueue : TransactionQueue :=
  ⟨fun j => if j = 0 then ⟨[7, 8], some ⟨7, 0, 5⟩⟩ else KeyState.empty, 9⟩

/-- Concrete queue for witnesses: key 0 holds tickets 3 then 4, unlocked. -/
def demoQueue2 : TransactionQueue :=
  ⟨fun j => if j = 0 then ⟨[3, 4], none⟩ else KeyState.empty, 5⟩

/-- C4 counterexample: at a concrete locked queue whose relayer probe
confirms completion, the very poll attempt that discovers completion
unlocks the key and removes the locked head ticket — afterwards the
caller's ticket 8 is next on an unlocked key — yet the attempt itself
returns false, so the caller is not admitted by that attempt, contrary to
the claim that the attempt re-evaluates is-head for the caller. -/
theorem waitAttempt_discovering_attempt_not_admitting :
    (waitAttempt demoQueue 0 8 fun _ => some true).2 = false ∧
    isNextInQueue (waitAttempt demoQueue 0 8 fun _ => some true).1 0 8 = true ∧
    isLocked (waitAttempt demoQueue 0 8 fun _ => some true).1 0 = false := by
  decide

/-- C4 amended: in every poll attempt of waitForPendingTransactions where
the key is locked and the relayer confirms completion of the recorded
in-flight handle, that same attempt unlocks the key and removes the locked
ticket from the waiting line, but returns false (not ready); the is-head
check for the caller's own ticket is only re-evaluated by the next poll
attempt, which then reports exactly whether the caller's ticket is next. -/
theorem waitAttempt_completion_detection
    (q : TransactionQueue) (k t : Nat) (probe probeNext : LockRec → Option Bool)
    (cur : LockRec) (hlock : getCurrentTransaction q k = some cur)
    (hconf : probe cur = some true) :
    (waitAttempt q k t probe).1
        = unqueue (unlockTransaction q k cur.ticketId) k cur.ticketId ∧
    (waitAttempt q k t probe).2 = false ∧
    isLocked (waitAttempt q k t probe).1 k = false ∧
    (waitAttempt (waitAttempt q k t probe).1 k t probeNext).2
        = isNextInQueue (waitAttempt q k t probe).1 k t := by
  unfold getCurrentTransaction at hlock
  have hl : isLocked q k = true := by
    unfold isLocked
    rw [hlock]
    rfl
  have kstep : waitAttempt q k t probe
      = (unqueue (unlockTransaction q k cur.ticketId) k cur.ticketId, false) := by
    unfold waitAttempt getCurrentTransaction
    rw [hlock]
    simp [hl, hconf]
  have hlk : ((unqueue (unlockTransaction q k cur.ticketId) k cur.ticketId).entries k).lock
      = none := by
    unfold unqueue unlockTransaction TransactionQueue.update
    simp [hlock]
  refine ⟨by rw [kstep], by rw [kstep], ?_, ?_⟩
  · rw [kstep]
    simp [isLocked, hlk]
  · rw [kstep]
    unfold waitAttempt
    simp [isLocked, hlk]

/-- Witness for the amended C4 at the concrete queue demoQueue. -/
theorem waitAttempt_completion_detection_witness :
    (waitAttempt demoQueue 0 8 fun _ => some true).1
        = unqueue (unlockTransaction demoQueue 0 7) 0 7 ∧
    (waitAttempt demoQueue 0 8 fun _ => some true).2 = false ∧
    isLocked (waitAttempt demoQueue 0 8 fun _ => some true).1 0 = false ∧
    (waitAttempt (waitAttempt demoQueue 0 8 fun _ => some true).1 0 8 fun _ => none).2
        = isNextInQueue (waitAttempt demoQueue 0 8 fun _ => some true).1 0 8 :=
  waitAttempt_completion_detection demoQueue 0 8 (fun _ => some true) (fun _ => none)
    ⟨7, 0, 5⟩ (by decide) rfl

/-- C5: fail-fast on rejected submission.  When the relayer POST of
executeSafeTx / executeTokenSafeTx fails before acceptance, the catch
branch unlocks and unqueues the caller's own ticket and the call returns
null; the next queued ticket is immediately next on an unlocked key, and a
single poll attempt admits it whatever the relayer probe does (no external
confirmation is consulted), so the key's queue remains usable. -/
theorem submit_failure_failfast
    (q : TransactionQueue) (k t t' n : Nat) (rest : List Nat)
    (probe : LockRec → Option Bool)
    (hw : (q.entries k).waiting = t :: t' :: rest)
    (hl : (q.entries k).lock = none) (hne : t' ≠ t) :
    (submitPhase q k t n none).2 = none ∧
    isLocked (submitPhase q k t n none).1 k = false ∧
    t ∉ ((submitPhase q k t n none).1.entries k).waiting ∧
    isNextInQueue (submitPhase q k t n none).1 k t' = true ∧
    (waitAttempt (submitPhase q k t n none).1 k t' probe).2 = true := by
  have hentry : ((submitPhase q k t n none).1.entries k)
      = ⟨(t' :: rest).filter fun x => x ≠ t, none⟩ := by
    unfold submitPhase unqueue unlockTransaction TransactionQueue.update
    simp [hl, hw, hne]
  have hnext : isNextInQueue (submitPhase q k t n none).1 k t' = true := by
    simp [isNextInQueue, hentry, hne, List.filter_cons]
  have hunlocked : isLocked (submitPhase q k t n none).1 k = false := by
    simp [isLocked, hentry]
  refine ⟨rfl, hunlocked, ?_, hnext, ?_⟩
  · rw [hentry]
    simp [List.mem_filter]
  · unfold waitAttempt
    rw [hunlocked]
    simp [hnext]

/-- Witness for C5 at the concrete queue demoQueue2. -/
theorem submit_failure_failfast_witness :
    (submitPhase demoQueue2 0 3 1 none).2 = none ∧
    isNextInQueue (submitPhase demoQueue2 0 3 1 none).1 0 4 = true ∧
    (waitAttempt (submitPhase demoQueue2 0 3 1 none).1 0 4 fun _ => none).2 = true := by
  have h := submit_failure_failfast demoQueue2 0 3 4 1 [] (fun _ => none) rfl rfl
    (by decide)
  exact ⟨h.1, h.2.2.2.1, h.2.2.2.2⟩

/-- C8: unlock and retire are idempotent, unlocking a key that holds no
lock is the identity, retiring removes nothing but the named ticket, and
unlocking leaves a lock held by a different ticket untouched. -/
theorem unlock_unqueue_idempotent (q : TransactionQueue) (k t : Nat) :
    unlockTransaction (unlockTransaction q k t) k t = unlockTransaction q k t ∧
    unqueue (unqueue q k t) k t = unqueue q k t ∧
    ((q.entries k).lock = none → unlockTransaction q k t = q) ∧
    (∀ t', t' ≠ t →
      (t' ∈ ((unqueue q k t).entries k).waiting ↔ t' ∈ (q.entries k).waiting)) ∧
    (∀ r, (q.entries k).lock = some r → r.ticketId ≠ t →
      unlockTransaction q k t = q) := by
  refine ⟨?_, ?_, ?_, ?_, ?_⟩
  · apply tq_ext
    · intro j
      by_cases hj : j = k
      · subst hj
        unfold unlockTransaction
        rw [update_entries_same, update_entries_same]
        cases h : (q.entries j).lock with
        | none => simp [h]
        | some r => by_cases hr : r.ticketId = t <;> simp [hr, h]
      · unfold unlockTransaction
        rw [update_entries_other _ _ _ hj, update_entries_other _ _ _ hj]
    · rfl
  · apply tq_ext
    · intro j
      by_cases hj : j = k
      · subst hj
        unfold unqueue
        rw [update_entries_same, update_entries_same]
        simp [filter_ne_idem]
      · unfold unqueue
        rw [update_entries_other _ _ _ hj, update_entries_other _ _ _ hj]
    · rfl
  · intro h
    apply tq_ext
    · intro j
      by_cases hj : j = k
      · subst hj
        unfold unlockTransaction
        rw [update_entries_same, h]
      · unfold unlockTransaction
        rw [update_entries_other _ _ _ hj]
    · rfl
  · intro t' ht'
    unfold unqueue
    rw [update_entries_same]
    simp [List.mem_filter, ht']
  · intro r hr hrt
    apply tq_ext
    · intro j
      by_cases hj : j = k
      · subst hj
        unfold unlockTransaction
        rw [update_entries_same, hr]
        simp [hrt]
      · unfold unlockTransaction
        rw [update_entries_other _ _ _ hj]
    · rfl

/-- Witness for C8 at the concrete queues demoQueue2 and demoQueue. -/
theorem unlock_unqueue_idempotent_witness :
    unqueue (unqueue demoQueue2 0 3) 0 3 = unqueue demoQueue2 0 3 ∧
    unlockTransaction demoQueue2 0 3 = demoQueue2 ∧
    unlockTransaction demoQueue 0 8 = demoQueue :=
  ⟨(unlock_unqueue_idempotent demoQueue2 0 3).2.1,
   (unlock_unqueue_idempotent demoQueue2 0 3).2.2.1 (by decide),
   (unlock_unqueue_idempotent demoQueue 0 8).2.2.2.2 ⟨7, 0, 5⟩ (by decide) (by decide)⟩

/-- C9: failure isolation.  Every sequencer operation invoked for key k —
enqueue, lock, unlock, retire, a whole poll attempt, and the submit phase
including its failure branch — leaves the queue state of every other key
unchanged; and the failure path of one ticket (unlock plus unqueue of t)
neither removes another ticket from the same key's waiting line nor
disturbs a lock held by a different ticket. -/
theorem sequencer_frame (q : TransactionQueue) (k k' t n : Nat) (r : LockRec)
    (probe : LockRec → Option Bool) (res : Option Nat) (hk : k' ≠ k) :
    ((q.queue k).1.entries k' = q.entries k') ∧
    ((lockTransaction q k r).entries k' = q.entries k') ∧
    ((unlockTransaction q k t).entries k' = q.entries k') ∧
    ((unqueue q k t).entries k' = q.entries k') ∧
    ((waitAttempt q k t probe).1.entries k' = q.entries k') ∧
    ((submitPhase q k t n res).1.entries k' = q.entries k') ∧
    (∀ t', t' ≠ t →
      (t' ∈ ((unqueue (unlockTransaction q k t) k t).entries k).waiting
        ↔ t' ∈ (q.entries k).waiting)) ∧
    (∀ r', (q.entries k).lock = some r' → r'.ticketId ≠ t →
      ((unqueue (unlockTransaction q k t) k t).entries k).lock = some r') := by
  refine ⟨?_, ?_, ?_, ?_, ?_, ?_, ?_, ?_⟩
  · exact update_entries_other q k
      (fun st => { st with waiting := st.waiting ++ [q.nextTicketId] }) hk
  · unfold lockTransaction
    exact update_entries_other _ _ _ hk
  · unfold unlockTransaction
    exact update_entries_other _ _ _ hk
  · unfold unqueue
    exact update_entries_other _ _ _ hk
  · unfold waitAttempt
    split
    · rfl
    · split
      · rfl
      · split
        · unfold unqueue unlockTransaction
          rw [update_entries_other _ _ _ hk, update_entries_other _ _ _ hk]
        · rfl
  · unfold submitPhase
    cases res with
    | none =>
      unfold unqueue unlockTransaction
      rw [update_entries_other _ _ _ hk, update_entries_other _ _ _ hk]
    | some h =>
      exact update_entries_other q k
        (fun st => { st with lock := some ⟨t, n, h⟩ }) hk
  · intro t' ht'
    unfold unqueue
    rw [update_entries_same]
    simp only [List.mem_filter, decide_eq_true_eq]
    unfold unlockTransaction
    rw [update_entries_same]
    constructor
    · rintro ⟨hm, -⟩
      cases h : (q.entries k).lock with
      | none => simpa [h] using hm
      | some r0 =>
        rw [h] at hm
        by_cases hr0 : r0.ticketId = t <;> simpa [hr0] using hm
    · intro hm
      refine ⟨?_, ht'⟩
      cases h : (q.entries k).lock with
      | none => simpa [h] using hm
      | some r0 => by_cases hr0 : r0.ticketId = t <;> simp [hr0, hm]
  · intro r' hr' hrt
    unfold unqueue unlockTransaction
    rw [update_entries_same, update_entries_same, hr']
    simp [hrt, hr']

/-- Witness for C9 at the concrete queue demoQueue, keys 0 and 1. -/
theorem sequencer_frame_witness :
    ((demoQueue.queue 0).1.entries 1 = demoQueue.entries 1) ∧
    ((unqueue (unlockTransaction demoQueue 0 8) 0 8).entries 0).lock = some ⟨7, 0, 5⟩ :=
  ⟨(sequencer_frame demoQueue 0 1 8 0 ⟨7, 0, 5⟩ (fun _ => none) none (by decide)).1,
   (sequencer_frame demoQueue 0 1 8 0 ⟨7, 0, 5⟩ (fun _ => none) none
      (by decide)).2.2.2.2.2.2.2 ⟨7, 0, 5⟩ (by decide) (by decide)⟩

/-- Modelled from the spec: whether waiting another intervalMs at the given
elapsed time would exceed the configured deadline; no timeoutMs means
unbounded polling is allowed (common/loop is not under src/; spec
section 4.2). -/
def timeoutHit : Option Nat → Nat → Nat → Bool
  | none, _, _ => false
  | some T, elapsed, interval => decide (elapsed + interval > T)

/-- Modelled from the spec: the retry loop of common/loop (spec
section 4.2).  action n is the n-th attempt of the asynchronous action,
none meaning the attempt threw; a thrown attempt is swallowed and treated
as a non-satisfying result.  The loop returns the first result satisfying
pred; otherwise it waits intervalMs and retries, failing with the
diagnostic label once the cumulative elapsed time would exceed the
deadline.  The fuel argument bounds the recursion depth; poll below
supplies enough for the deadline to fire first. -/
def pollGo {α : Type} (action : Nat → Option α) (pred : α → Bool)
    (interval : Nat) (timeout : Option Nat) (label : String) :
    Nat → Nat → Nat → Except String α
  | _, _, 0 => Except.error label
  | n, elapsed, fuel + 1 =>
    match action n with
    | some r =>
      if pred r then Except.ok r
      else if timeoutHit timeout elapsed interval then Except.error label
      else pollGo action pred interval timeout label (n + 1) (elapsed + interval) fuel
    | none =>
      if timeoutHit timeout elapsed interval then Except.error label
      else pollGo action pred interval timeout label (n + 1) (elapsed + interval) fuel

/-- Modelled from the spec: poll(action, predicate, with intervalMs,
timeoutMs T and a diagnostic label); attempts run at elapsed times
0, interval, 2 * interval, … so T / interval + 1 attempts suffice for the
deadline check to fire. -/
def poll {α : Type} (action : Nat → Option α) (pred : α → Bool)
    (interval T : Nat) (label : String) : Except String α :=
  pollGo action pred interval (some T) label 0 0 (T / interval + 1)

/-- Attempt m of the action does not satisfy the predicate (a thrown
attempt counts as not satisfying). -/
def notSatAt {α : Type} (action : Nat → Option α) (pred : α → Bool)
    (m : Nat) : Bool :=
  match action m with
  | some r => ! pred r
  | none => true

theorem pollGo_succ {α : Type} (action : Nat → Option α) (pred : α → Bool)
    (interval : Nat) (timeout : Option Nat) (label : String)
    (n elapsed fuel : Nat) :
    pollGo action pred interval timeout label n elapsed (fuel + 1)
      = match action n with
        | some r =>
          if pred r then Except.ok r
          else if timeoutHit timeout elapsed interval then Except.error label
          else pollGo action pred interval timeout label (n + 1) (elapsed + interval) fuel
        | none =>
          if timeoutHit timeout elapsed interval then Except.error label
          else pollGo action pred interval timeout label (n + 1) (elapsed + interval) fuel := rfl

theorem pollGo_agree {α : Type} (action action' : Nat → Option α)
    (pred : α → Bool) (interval : Nat) (timeout : Option Nat) (label : String) :
    ∀ fuel n elapsed, (∀ m, n ≤ m → m < n + fuel → action m = action' m) →
      pollGo action pred interval timeout label n elapsed fuel
        = pollGo action' pred interval timeout label n elapsed fuel := by
  intro fuel
  induction fuel with
  | zero => intro n elapsed _; rfl
  | succ fuel ih =>
    intro n elapsed hag
    rw [pollGo_succ, pollGo_succ, ← hag n le_rfl (by omega)]
    have ihn := ih (n + 1) (elapsed + interval)
      fun m hm hmf => hag m (by omega) (by omega)
    cases action n with
    | none => rw [ihn]
    | some r => rw [ihn]

theorem pollGo_error {α : Type} (action : Nat → Option α) (pred : α → Bool)
    (interval : Nat) (timeout : Option Nat) (label : String) :
    ∀ fuel n elapsed, (∀ m, n ≤ m → m < n + fuel → notSatAt action pred m = true) →
      pollGo action pred interval timeout label n elapsed fuel
        = Except.error label := by
  intro fuel
  induction fuel with
  | zero => intro n elapsed _; rfl
  | succ fuel ih =>
    intro n elapsed hns
    rw [pollGo_succ]
    have ihn := ih (n + 1) (elapsed + interval)
      fun m hm hmf => hns m (by omega) (by omega)
    have hn0 := hns n le_rfl (by omega)
    unfold notSatAt at hn0
    cases ha : action n with
    | none =>
      simp only [ha]
      rw [ihn]
      split <;> rfl
    | some r =>
      rw [ha] at hn0
      simp only [Bool.not_eq_true'] at hn0
      simp only [ha, hn0]
      rw [ihn]
      simp only [Bool.false_eq_true, if_false]
      split <;> rfl

theorem pollGo_first_sat {α : Type} (action : Nat → Option α) (pred : α → Bool)
    (interval T : Nat) (label : String) (hi : 0 < interval) (j : Nat) (r : α)
    (hj : action j = some r) (hr : pred r = true) (hTj : j ≤ T / interval) :
    ∀ fuel n, n ≤ j → j < n + fuel →
      (∀ m, n ≤ m → m < j → notSatAt action pred m = true) →
      pollGo action pred interval (some T) label n (n * interval) fuel
        = Except.ok r := by
  intro fuel
  induction fuel with
  | zero => intro n hn hlt; omega
  | succ fuel ih =>
    intro n hn hlt hns
    rw [pollGo_succ]
    by_cases hnj : n = j
    · subst hnj
      simp only [hj, hr]
      simp
    · have hnlt : n < j := lt_of_le_of_ne hn hnj
      have hth : timeoutHit (some T) (n * interval) interval = false := by
        have h2 : (n + 1) * interval ≤ T :=
          (Nat.le_div_iff_mul_le hi).mp (by omega)
        simp only [timeoutHit, decide_eq_false_iff_not, not_lt]
        nlinarith
      have hrec : pollGo action pred interval (some T) label (n + 1)
          (n * interval + interval) fuel = Except.ok r := by
        have := ih (n + 1) (by omega) (by omega)
          fun m hm hmj => hns m (by omega) hmj
        rwa [show (n + 1) * interval = n * interval + interval by ring] at this
      have hn0 := hns n le_rfl hnlt
      unfold notSatAt at hn0
      cases ha : action n with
      | none =>
        simp only [ha, hth]
        rw [hrec]
        simp
      | some r0 =>
        rw [ha] at hn0
        simp only [Bool.not_eq_true'] at hn0
        simp only [ha, hn0, hth]
        rw [hrec]
        simp

/-- C6: poller bounded termination.  With a configured deadline T and
interval i, poll consults at most the attempts 0 … T / i, i.e. it
terminates after at most T / i + 1 attempts — within T plus one attempt's
overhead (the result is unchanged by whatever the action does at later
attempts); if no attempt within the deadline satisfies the predicate it
fails with a timeout carrying the configured label, and otherwise it
returns the first action result satisfying the predicate, even if all
earlier action invocations threw. -/
theorem poll_bounded_termination (α : Type) (action action' : Nat → Option α)
    (pred : α → Bool) (interval T : Nat) (label : String) (hi : 0 < interval) :
    ((∀ m, m ≤ T / interval → action m = action' m) →
      poll action pred interval T label = poll action' pred interval T label) ∧
    ((∀ m, m ≤ T / interval → notSatAt action pred m = true) →
      poll action pred interval T label = Except.error label) ∧
    (∀ j r, action j = some r → pred r = true →
      (∀ m, m < j → notSatAt action pred m = true) → j ≤ T / interval →
      poll action pred interval T label = Except.ok r) := by
  refine ⟨?_, ?_, ?_⟩
  · intro hag
    exact pollGo_agree action action' pred interval (some T) label _ 0 0
      fun m hm hmf => hag m (by omega)
  · intro hns
    exact pollGo_error action pred interval (some T) label _ 0 0
      fun m hm hmf => hns m (by omega)
  · intro j r hj hr hns hTj
    have := pollGo_first_sat action pred interval T label hi j r hj hr hTj
      (T / interval + 1) 0 (by omega) (by omega) fun m hm hmj => hns m hmj
    simpa [poll] using this

/-- Witness for C6: with interval 10 and timeout 50, an action that throws
on attempts 0-2 and returns 42 on attempt 3 yields ok 42, and an action
that always returns the non-satisfying 0 yields the labelled timeout. -/
theorem poll_bounded_termination_witness :
    poll (fun n => if n = 3 then some 42 else none) (fun r => r == 42) 10 50
        (String.mk [])
      = Except.ok 42 ∧
    poll (fun _ => some 0) (fun r => r == 42) 10 50 (String.mk [])
      = Except.error (String.mk []) := by
  constructor
  · exact (poll_bounded_termination Nat _ (fun _ => none) _ 10 50 _
      (by norm_num)).2.2 3 42 (by decide) (by decide)
      (by decide) (by decide)
  · exact (poll_bounded_termination Nat _ (fun _ => none) _ 10 50 _
      (by norm_num)).2.1 (by decide)

/-- C7: transient probe failures are swallowed.  A poll attempt of
waitForPendingTransactions whose relayer probe throws leaves the queue
unchanged and returns plain false — the exception never reaches the
waiting caller; and in the retry loop a thrown attempt is handled exactly
like a non-satisfying result: replacing every non-satisfying attempt of
the action by a throw leaves the loop's outcome unchanged for every
starting attempt, elapsed time and fuel, so a probe exception can never
terminate the loop with an error before the deadline (if any) does. -/
theorem probe_failures_swallowed (α : Type) (action : Nat → Option α)
    (pred : α → Bool) (interval : Nat) (timeout : Option Nat) (label : String)
    (q : TransactionQueue) (k t : Nat) (hl : isLocked q k = true) :
    waitAttempt q k t (fun _ => none) = (q, false) ∧
    (∀ n elapsed fuel,
      pollGo action pred interval timeout label n elapsed fuel
        = pollGo (fun m => if notSatAt action pred m then none else action m)
            pred interval timeout label n elapsed fuel) := by
  constructor
  · unfold waitAttempt getCurrentTransaction
    cases h : (q.entries k).lock with
    | none =>
      unfold isLocked at hl
      rw [h] at hl
      simp at hl
    | some cur =>
      simp [hl]
  · intro n elapsed fuel
    induction fuel generalizing n elapsed with
    | zero => rfl
    | succ fuel ih =>
      rw [pollGo_succ, pollGo_succ]
      have hns : notSatAt action pred n = notSatAt action pred n := rfl
      cases ha : action n with
      | none =>
        have hcen : notSatAt action pred n = true := by unfold notSatAt; rw [ha]
        simp only [ha, hcen, if_true]
        rw [ih]
      | some r =>
        cases hp : pred r with
        | true =>
          have hcen : notSatAt action pred n = false := by
            simp [notSatAt, ha, hp]
          simp only [ha, hcen, Bool.false_eq_true, if_false, hp]
          simp
        | false =>
          have hcen : notSatAt action pred n = true := by
            simp [notSatAt, ha, hp]
          simp only [ha, hcen, if_true, hp]
          rw [ih]
          simp

/-- Witness for C7 at the locked concrete queue demoQueue and a concrete
loop instance. -/
theorem probe_failures_swallowed_witness :
    waitAttempt demoQueue 0 8 (fun _ => none) = (demoQueue, false) ∧
    pollGo (fun _ => some 0) (fun r => r == 42) 10 (some 50) (String.mk []) 0 0 2
      = pollGo (fun m => if notSatAt (fun _ => some (0 : Nat)) (fun r => r == 42) m
            then none else some 0) (fun r => r == 42) 10 (some 50)
            (String.mk []) 0 0 2 := by
  have h := probe_failures_swallowed Nat (fun _ => some 0) (fun r => r == 42)
    10 (some 50) (String.mk []) demoQueue 0 8 (by decide)
  exact ⟨h.1, h.2 0 0 2⟩

/-- Retiring a ticket on the failure and completion paths: unlock followed
by unqueue, exactly the two consecutive synchronous calls in
src/utils.js 207-208 and 438-439 / 573-574. -/
def retire (q : TransactionQueue) (k t : Nat) : TransactionQueue :=
  unqueue (unlockTransaction q k t) k t

theorem retire_entries_other (q : TransactionQueue) (k t : Nat) {k' : Nat}
    (h : k' ≠ k) : (retire q k t).entries k' = q.entries k' := by
  unfold retire unqueue unlockTransaction
  rw [update_entries_other _ _ _ h, update_entries_other _ _ _ h]

theorem retire_waiting (q : TransactionQueue) (k t : Nat) :
    ((retire q k t).entries k).waiting
      = (q.entries k).waiting.filter fun x => x ≠ t := by
  unfold retire unqueue unlockTransaction
  rw [update_entries_same, update_entries_same]
  cases h : (q.entries k).lock with
  | none => rfl
  | some r => by_cases hr : r.ticketId = t <;> simp [hr]

theorem retire_lock_none (q : TransactionQueue) (k t : Nat)
    (h : (q.entries k).lock = none) :
    ((retire q k t).entries k).lock = none := by
  unfold retire unqueue unlockTransaction
  rw [update_entries_same, update_entries_same, h]
  simp [h]

theorem retire_lock_match (q : TransactionQueue) (k t : Nat) (r : LockRec)
    (h : (q.entries k).lock = some r) (ht : r.ticketId = t) :
    ((retire q k t).entries k).lock = none := by
  unfold retire unqueue unlockTransaction
  rw [update_entries_same, update_entries_same, h]
  simp [ht]

theorem retire_lock_nomatch (q : TransactionQueue) (k t : Nat) (r : LockRec)
    (h : (q.entries k).lock = some r) (ht : r.ticketId ≠ t) :
    ((retire q k t).entries k).lock = some r := by
  unfold retire unqueue unlockTransaction
  rw [update_entries_same, update_entries_same, h]
  simp [ht, h]

theorem retire_nextTicketId (q : TransactionQueue) (k t : Nat) :
    (retire q k t).nextTicketId = q.nextTicketId := rfl

/-- Program counter of one logical caller running executeTokenSafeTx or
executeSafeTx (src/utils.js 333-443 and 458-578; both have the same queue
behaviour).  Suspension points of the source are the boundaries between
counters: the relayer GET of a locked poll attempt (probing), the
requestNonce call (admitted) and the relayer POST (ready). -/
inductive PC
  | start
  | polling
  | probing (cur : LockRec)
  | admitted
  | ready (nonce : Nat)
  | done (result : Option Nat)
deriving DecidableEq, Repr

/-- One logical caller: its Safe address (key), its ticket (meaningful once
past start) and its program counter. -/
structure Proc where
  key : Nat
  ticket : Nat
  pc : PC
deriving DecidableEq, Repr

/-- Pointwise update of a function out of Nat. -/
def updf {β : Type} (f : Nat → β) (i : Nat) (b : β) : Nat → β :=
  fun j => if j = i then b else f j

theorem updf_same {β : Type} (f : Nat → β) (i : Nat) (b : β) :
    updf f i b i = b := by
  simp [updf]

theorem updf_other {β : Type} (f : Nat → β) (i : Nat) (b : β) {j : Nat}
    (h : j ≠ i) : updf f i b j = f j := by
  simp [updf, h]

/-- Global state of the interleaving semantics: the shared transaction
queue, the logical callers, the relayer's per-key list of accepted
submissions (newest first) — which coincides with the records passed to
lockTransaction, since src/utils.js locks immediately and synchronously
after a successful POST — and two ghost histories per key: the tickets in
enqueue order and in admission order (oldest first). -/
structure GState where
  tq : TransactionQueue
  procs : Nat → Option Proc
  lockLog : Nat → List LockRec
  enqLog : Nat → List Nat
  admLog : Nat → List Nat

/-- Next sequence number according to the external world: one past the
nonce of the most recently accepted submission, 0 for a fresh Safe.  The
Safe contract nonce (the fallback of requestNonce, already incremented
after execution) agrees with this value on a chain that has executed the
accepted submissions. -/
def nextNonceOf (l : List LockRec) : Nat :=
  match l.head? with
  | some r => r.nonce + 1
  | none => 0

theorem requestNonce_benign (L : List LockRec) (resp : Option (Option Nat))
    (h : resp = none ∨ resp = some (L.head?.map LockRec.nonce)) :
    requestNonce resp (nextNonceOf L) = nextNonceOf L := by
  rcases h with rfl | rfl
  · rfl
  · cases L with
    | nil => rfl
    | cons r L => rfl

/-- Effect of transactionQueue.queue(safeAddress) (utils.js 379, 499):
register the ticket and enter the wait loop. -/
def enqueueEffect (s : GState) (i : Nat) (p : Proc) : GState :=
  { s with
    tq := (s.tq.queue p.key).1,
    procs := updf s.procs i (some ⟨p.key, s.tq.nextTicketId, .polling⟩),
    enqLog := updf s.enqLog p.key (s.enqLog p.key ++ [s.tq.nextTicketId]) }

/-- Effect of a poll attempt that finds the key unlocked and the caller's
ticket next (utils.js 181-183): waitForPendingTransactions returns. -/
def grantEffect (s : GState) (i : Nat) (p : Proc) : GState :=
  { s with
    procs := updf s.procs i (some ⟨p.key, p.ticket, .admitted⟩),
    admLog := updf s.admLog p.key (s.admLog p.key ++ [p.ticket]) }

/-- Effect of a locked poll attempt reading the current lock record and
suspending on the relayer GET (utils.js 186-203). -/
def probeStartEffect (s : GState) (i : Nat) (p : Proc) (cur : LockRec) : GState :=
  { s with procs := updf s.procs i (some ⟨p.key, p.ticket, .probing cur⟩) }

/-- Effect of the GET resuming with the submission confirmed (utils.js
206-208): unlock and unqueue the recorded ticket, then the attempt returns
false and the caller keeps polling. -/
def probeConfirmEffect (s : GState) (i : Nat) (p : Proc) (cur : LockRec) : GState :=
  { s with
    tq := retire s.tq p.key cur.ticketId,
    procs := updf s.procs i (some ⟨p.key, p.ticket, .polling⟩) }

/-- Effect of the GET resuming unconfirmed, with an empty result, or
throwing (utils.js 210-212): nothing changes and the caller keeps polling. -/
def probeMissEffect (s : GState) (i : Nat) (p : Proc) : GState :=
  { s with procs := updf s.procs i (some ⟨p.key, p.ticket, .polling⟩) }

/-- Effect of requestNonce returning (utils.js 390, 525): the caller signs
and proceeds to the POST. -/
def nonceEffect (s : GState) (i : Nat) (p : Proc) (n : Nat) : GState :=
  { s with procs := updf s.procs i (some ⟨p.key, p.ticket, .ready n⟩) }

/-- Effect of a successful POST (utils.js 411-436): the relayer accepts the
submission and, synchronously in the same resume slice, lockTransaction
records it; the call returns the txHash. -/
def postOkEffect (s : GState) (i : Nat) (p : Proc) (n h : Nat) : GState :=
  { s with
    tq := lockTransaction s.tq p.key ⟨p.ticket, n, h⟩,
    procs := updf s.procs i (some ⟨p.key, p.ticket, .done (some h)⟩),
    lockLog := updf s.lockLog p.key (⟨p.ticket, n, h⟩ :: s.lockLog p.key) }

/-- Effect of a failed POST (utils.js 437-441): unlock and unqueue the
caller's own ticket and return null. -/
def postFailEffect (s : GState) (i : Nat) (p : Proc) : GState :=
  { s with
    tq := retire s.tq p.key p.ticket,
    procs := updf s.procs i (some ⟨p.key, p.ticket, .done none⟩) }

/-- Small-step interleaving semantics of any number of logical callers
executing executeTokenSafeTx / executeSafeTx concurrently against the
shared transaction queue.  Each step is one synchronous slice between
suspension points of the source; the scheduler picks any caller, the
relayer nondeterministically confirms or not, the nonce request either
uses the relayer hint or falls back to the Safe contract nonce, and the
POST nondeterministically succeeds or fails. -/
inductive Step : GState → GState → Prop
  | enqueue (s : GState) (i : Nat) (p : Proc)
      (hp : s.procs i = some p) (hpc : p.pc = .start) :
      Step s (enqueueEffect s i p)
  | grant (s : GState) (i : Nat) (p : Proc)
      (hp : s.procs i = some p) (hpc : p.pc = .polling)
      (hlock : isLocked s.tq p.key = false)
      (hnext : isNextInQueue s.tq p.key p.ticket = true) :
      Step s (grantEffect s i p)
  | probeStart (s : GState) (i : Nat) (p : Proc) (cur : LockRec)
      (hp : s.procs i = some p) (hpc : p.pc = .polling)
      (hcur : getCurrentTransaction s.tq p.key = some cur) :
      Step s (probeStartEffect s i p cur)
  | probeConfirm (s : GState) (i : Nat) (p : Proc) (cur : LockRec)
      (hp : s.procs i = some p) (hpc : p.pc = .probing cur)
      (hlisted : cur ∈ s.lockLog p.key) :
      Step s (probeConfirmEffect s i p cur)
  | probeMiss (s : GState) (i : Nat) (p : Proc) (cur : LockRec)
      (hp : s.procs i = some p) (hpc : p.pc = .probing cur) :
      Step s (probeMissEffect s i p)
  | getNonce (s : GState) (i : Nat) (p : Proc) (resp : Option (Option Nat))
      (hp : s.procs i = some p) (hpc : p.pc = .admitted)
      (hresp : resp = none ∨ resp = some ((s.lockLog p.key).head?.map LockRec.nonce)) :
      Step s (nonceEffect s i p (requestNonce resp (nextNonceOf (s.lockLog p.key))))
  | postOk (s : GState) (i : Nat) (p : Proc) (n h : Nat)
      (hp : s.procs i = some p) (hpc : p.pc = .ready n) :
      Step s (postOkEffect s i p n h)
  | postFail (s : GState) (i : Nat) (p : Proc) (n : Nat)
      (hp : s.procs i = some p) (hpc : p.pc = .ready n) :
      Step s (postFailEffect s i p)

/-- Initial state: an arbitrary assignment of callers to keys, every caller
before its transactionQueue.queue call, empty queue and histories. -/
def initState (ks : Nat → Option Nat) : GState :=
  { tq := TransactionQueue.init,
    procs := fun i => (ks i).map fun k => ⟨k, 0, .start⟩,
    lockLog := fun _ => [],
    enqLog := fun _ => [],
    admLog := fun _ => [] }

/-- States reachable by interleaving any number of concurrent callers. -/
def Reachable (ks : Nat → Option Nat) (s : GState) : Prop :=
  Relation.ReflTransGen Step (initState ks) s

/-- A caller inside the critical window between winning head-and-unlocked
and completing its POST (the suspension points of requestNonce, signing
and the POST itself lie in this window). -/
def inCS : PC → Prop
  | .admitted => True
  | .ready _ => True
  | _ => False

theorem inCS_ne_start {pc : PC} (h : inCS pc) : pc ≠ .start := by
  cases pc <;> simp_all [inCS]

theorem inCS_ne_done {pc : PC} (h : inCS pc) : ∀ r, pc ≠ .done r := by
  cases pc <;> simp_all [inCS]

theorem queue_entries (q : TransactionQueue) (k j : Nat) :
    ((q.queue k).1).entries j
      = if j = k
        then { q.entries j with waiting := (q.entries j).waiting ++ [q.nextTicketId] }
        else q.entries j := rfl

theorem queue_nextTicketId (q : TransactionQueue) (k : Nat) :
    ((q.queue k).1).nextTicketId = q.nextTicketId + 1 := rfl

theorem lockTransaction_entries (q : TransactionQueue) (k : Nat) (r : LockRec)
    (j : Nat) :
    (lockTransaction q k r).entries j
      = if j = k then { q.entries j with lock := some r } else q.entries j := rfl

theorem head?_append_of_some {l l2 : List Nat} {x : Nat} (h : l.head? = some x) :
    (l ++ l2).head? = some x := by
  cases l with
  | nil => simp at h
  | cons a l => simpa using h

theorem head?_filter_of_ne {l : List Nat} {x t : Nat} (h : l.head? = some x)
    (hx : x ≠ t) : (l.filter fun y => y ≠ t).head? = some x := by
  cases l with
  | nil => simp at h
  | cons a l =>
    simp only [List.head?_cons, Option.some.injEq] at h
    subst h
    simp [hx]

theorem mem_of_head? {l : List Nat} {x : Nat} (h : l.head? = some x) : x ∈ l := by
  cases l with
  | nil => simp at h
  | cons a l =>
    simp only [List.head?_cons, Option.some.injEq] at h
    subst h
    simp

theorem head_le_of_sorted {l : List Nat} {x w : Nat}
    (hs : List.Pairwise (· < ·) l) (h : l.head? = some x) (hw : w ∈ l) :
    x ≤ w := by
  cases l with
  | nil => simp at h
  | cons a l =>
    simp only [List.head?_cons, Option.some.injEq] at h
    subst h
    rcases List.mem_cons.mp hw with rfl | hw
    · exact le_refl w
    · exact le_of_lt ((List.pairwise_cons.mp hs).1 w hw)

theorem mem_filter_ne {l : List Nat} {x t : Nat} :
    x ∈ (l.filter fun y => y ≠ t) ↔ x ∈ l ∧ x ≠ t := by
  simp [List.mem_filter]

/-- Inductive invariant of the interleaving semantics: freshness of the
ticket counter, global ticket uniqueness, sortedness of the waiting line
and of both ghost histories, the mutual-exclusion core (a caller in the
critical window owns the head ticket of an unlocked key), the relation of
the lock slot and its log to the histories, and the gapless nonce chain. -/
structure Inv (s : GState) : Prop where
  waitFresh : ∀ k t, t ∈ (s.tq.entries k).waiting → t < s.tq.nextTicketId
  procFresh : ∀ i p, s.procs i = some p → p.pc ≠ .start →
    p.ticket < s.tq.nextTicketId
  lockLogFresh : ∀ k r, r ∈ s.lockLog k → r.ticketId < s.tq.nextTicketId
  enqFresh : ∀ k t, t ∈ s.enqLog k → t < s.tq.nextTicketId
  admFresh : ∀ k t, t ∈ s.admLog k → t < s.tq.nextTicketId
  ticketUnique : ∀ i j p q, s.procs i = some p → s.procs j = some q →
    p.pc ≠ .start → q.pc ≠ .start → p.ticket = q.ticket → i = j
  waitSorted : ∀ k, List.Pairwise (· < ·) (s.tq.entries k).waiting
  enqSorted : ∀ k, List.Pairwise (· < ·) (s.enqLog k)
  admSorted : ∀ k, List.Pairwise (· < ·) (s.admLog k)
  admLeWait : ∀ k a w, a ∈ s.admLog k → w ∈ (s.tq.entries k).waiting → a ≤ w
  enqCover : ∀ k t, t ∈ s.enqLog k →
    t ∈ (s.tq.entries k).waiting ∨ t ∈ s.admLog k
  waitCover : ∀ k t, t ∈ (s.tq.entries k).waiting → t ∈ s.enqLog k
  notInAdm : ∀ i p, s.procs i = some p →
    (p.pc = .polling ∨ ∃ c, p.pc = .probing c) → p.ticket ∉ s.admLog p.key
  csLockFree : ∀ i p, s.procs i = some p → inCS p.pc →
    (s.tq.entries p.key).lock = none
  csHead : ∀ i p, s.procs i = some p → inCS p.pc →
    (s.tq.entries p.key).waiting.head? = some p.ticket
  csAdm : ∀ i p, s.procs i = some p → inCS p.pc → p.ticket ∈ s.admLog p.key
  lockHead : ∀ k r, (s.tq.entries k).lock = some r →
    (s.tq.entries k).waiting.head? = some r.ticketId
  lockListed : ∀ k r, (s.tq.entries k).lock = some r → r ∈ s.lockLog k
  lockLogAdm : ∀ k r, r ∈ s.lockLog k → r.ticketId ∈ s.admLog k
  lockLogDone : ∀ k r i p, r ∈ s.lockLog k → s.procs i = some p →
    p.pc ≠ .start → p.ticket = r.ticketId → ∃ res, p.pc = .done res
  probeListed : ∀ i p cur, s.procs i = some p → p.pc = .probing cur →
    cur ∈ s.lockLog p.key
  nonceChain : ∀ k, List.Chain' (fun a b => a.nonce = b.nonce + 1) (s.lockLog k)
  readyNonce : ∀ i p n, s.procs i = some p → p.pc = .ready n →
    n = nextNonceOf (s.lockLog p.key)

theorem initState_proc_start (ks : Nat → Option Nat) {i : Nat} {p : Proc}
    (hp : (initState ks).procs i = some p) : p.pc = .start := by
  unfold initState at hp
  simp only [Option.map_eq_some'] at hp
  obtain ⟨k, -, rfl⟩ := hp
  rfl

theorem inv_init (ks : Nat → Option Nat) : Inv (initState ks) := by
  have hw : ∀ k, ((initState ks).tq.entries k).waiting = [] := fun k => rfl
  have hl : ∀ k, ((initState ks).tq.entries k).lock = none := fun k => rfl
  have hlog : ∀ k, (initState ks).lockLog k = [] := fun k => rfl
  have henq : ∀ k, (initState ks).enqLog k = [] := fun k => rfl
  have hadm : ∀ k, (initState ks).admLog k = [] := fun k => rfl
  refine ⟨?_, ?_, ?_, ?_, ?_, ?_, ?_, ?_, ?_, ?_, ?_, ?_, ?_, ?_, ?_, ?_,
    ?_, ?_, ?_, ?_, ?_, ?_, ?_⟩
  · intro k t ht; rw [hw] at ht; simp at ht
  · intro i p hp hne; exact absurd (initState_proc_start ks hp) hne
  · intro k r hr; rw [hlog] at hr; simp at hr
  · intro k t ht; rw [henq] at ht; simp at ht
  · intro k t ht; rw [hadm] at ht; simp at ht
  · intro i j p q hp hq hne _ _; exact absurd (initState_proc_start ks hp) hne
  · intro k; rw [hw]; exact List.Pairwise.nil
  · intro k; rw [henq]; exact List.Pairwise.nil
  · intro k; rw [hadm]; exact List.Pairwise.nil
  · intro k a w ha _; rw [hadm] at ha; simp at ha
  · intro k t ht; rw [henq] at ht; simp at ht
  · intro k t ht; rw [hw] at ht; simp at ht
  · intro i p hp _; rw [hadm]; simp
  · intro i p hp hcs
    exact absurd (inCS_ne_start hcs) (by simp [initState_proc_start ks hp])
  · intro i p hp hcs
    exact absurd (inCS_ne_start hcs) (by simp [initState_proc_start ks hp])
  · intro i p hp hcs
    exact absurd (inCS_ne_start hcs) (by simp [initState_proc_start ks hp])
  · intro k r hr; rw [hl] at hr; simp at hr
  · intro k r hr; rw [hl] at hr; simp at hr
  · intro k r hr; rw [hlog] at hr; simp at hr
  · intro k r i p hr; rw [hlog] at hr; simp at hr
  · intro i p cur hp hpc
    rw [initState_proc_start ks hp] at hpc
    simp at hpc
  · intro k; rw [hlog]; exact List.chain'_nil
  · intro i p n hp hpc
    rw [initState_proc_start ks hp] at hpc
    simp at hpc

theorem enqueueEffect_entries (s : GState) (i : Nat) (p : Proc) (k : Nat) :
    (enqueueEffect s i p).tq.entries k
      = if k = p.key
        then { s.tq.entries k with
                waiting := (s.tq.entries k).waiting ++ [s.tq.nextTicketId] }
        else s.tq.entries k := rfl

theorem enqueueEffect_next (s : GState) (i : Nat) (p : Proc) :
    (enqueueEffect s i p).tq.nextTicketId = s.tq.nextTicketId + 1 := rfl

theorem enqueueEffect_procs (s : GState) (i : Nat) (p : Proc) (j : Nat) :
    (enqueueEffect s i p).procs j
      = if j = i then some ⟨p.key, s.tq.nextTicketId, .polling⟩
        else s.procs j := rfl

theorem enqueueEffect_enqLog (s : GState) (i : Nat) (p : Proc) (k : Nat) :
    (enqueueEffect s i p).enqLog k
      = if k = p.key then s.enqLog p.key ++ [s.tq.nextTicketId]
        else s.enqLog k := rfl

theorem enqueueEffect_lockLog (s : GState) (i : Nat) (p : Proc) :
    (enqueueEffect s i p).lockLog = s.lockLog := rfl

theorem enqueueEffect_admLog (s : GState) (i : Nat) (p : Proc) :
    (enqueueEffect s i p).admLog = s.admLog := rfl

theorem grantEffect_tq (s : GState) (i : Nat) (p : Proc) :
    (grantEffect s i p).tq = s.tq := rfl

theorem grantEffect_procs (s : GState) (i : Nat) (p : Proc) (j : Nat) :
    (grantEffect s i p).procs j
      = if j = i then some ⟨p.key, p.ticket, .admitted⟩ else s.procs j := rfl

theorem grantEffect_admLog (s : GState) (i : Nat) (p : Proc) (k : Nat) :
    (grantEffect s i p).admLog k
      = if k = p.key then s.admLog p.key ++ [p.ticket] else s.admLog k := rfl

theorem grantEffect_lockLog (s : GState) (i : Nat) (p : Proc) :
    (grantEffect s i p).lockLog = s.lockLog := rfl

theorem grantEffect_enqLog (s : GState) (i : Nat) (p : Proc) :
    (grantEffect s i p).enqLog = s.enqLog := rfl

theorem probeStartEffect_tq (s : GState) (i : Nat) (p : Proc) (cur : LockRec) :
    (probeStartEffect s i p cur).tq = s.tq := rfl

theorem probeStartEffect_procs (s : GState) (i : Nat) (p : Proc) (cur : LockRec)
    (j : Nat) :
    (probeStartEffect s i p cur).procs j
      = if j = i then some ⟨p.key, p.ticket, .probing cur⟩ else s.procs j := rfl

theorem probeStartEffect_logs (s : GState) (i : Nat) (p : Proc) (cur : LockRec) :
    (probeStartEffect s i p cur).lockLog = s.lockLog ∧
    (probeStartEffect s i p cur).enqLog = s.enqLog ∧
    (probeStartEffect s i p cur).admLog = s.admLog := ⟨rfl, rfl, rfl⟩

theorem probeConfirmEffect_tq (s : GState) (i : Nat) (p : Proc) (cur : LockRec) :
    (probeConfirmEffect s i p cur).tq = retire s.tq p.key cur.ticketId := rfl

theorem probeConfirmEffect_procs (s : GState) (i : Nat) (p : Proc)
    (cur : LockRec) (j : Nat) :
    (probeConfirmEffect s i p cur).procs j
      = if j = i then some ⟨p.key, p.ticket, .polling⟩ else s.procs j := rfl

theorem probeConfirmEffect_logs (s : GState) (i : Nat) (p : Proc) (cur : LockRec) :
    (probeConfirmEffect s i p cur).lockLog = s.lockLog ∧
    (probeConfirmEffect s i p cur).enqLog = s.enqLog ∧
    (probeConfirmEffect s i p cur).admLog = s.admLog := ⟨rfl, rfl, rfl⟩

theorem probeMissEffect_tq (s : GState) (i : Nat) (p : Proc) :
    (probeMissEffect s i p).tq = s.tq := rfl

theorem probeMissEffect_procs (s : GState) (i : Nat) (p : Proc) (j : Nat) :
    (probeMissEffect s i p).procs j
      = if j = i then some ⟨p.key, p.ticket, .polling⟩ else s.procs j := rfl

theorem probeMissEffect_logs (s : GState) (i : Nat) (p : Proc) :
    (probeMissEffect s i p).lockLog = s.lockLog ∧
    (probeMissEffect s i p).enqLog = s.enqLog ∧
    (probeMissEffect s i p).admLog = s.admLog := ⟨rfl, rfl, rfl⟩

theorem nonceEffect_tq (s : GState) (i : Nat) (p : Proc) (n : Nat) :
    (nonceEffect s i p n).tq = s.tq := rfl

theorem nonceEffect_procs (s : GState) (i : Nat) (p : Proc) (n j : Nat) :
    (nonceEffect s i p n).procs j
      = if j = i then some ⟨p.key, p.ticket, .ready n⟩ else s.procs j := rfl

theorem nonceEffect_logs (s : GState) (i : Nat) (p : Proc) (n : Nat) :
    (nonceEffect s i p n).lockLog = s.lockLog ∧
    (nonceEffect s i p n).enqLog = s.enqLog ∧
    (nonceEffect s i p n).admLog = s.admLog := ⟨rfl, rfl, rfl⟩

theorem postOkEffect_entries (s : GState) (i : Nat) (p : Proc) (n h k : Nat) :
    (postOkEffect s i p n h).tq.entries k
      = if k = p.key
        then { s.tq.entries k with lock := some ⟨p.ticket, n, h⟩ }
        else s.tq.entries k := rfl

theorem postOkEffect_next (s : GState) (i : Nat) (p : Proc) (n h : Nat) :
    (postOkEffect s i p n h).tq.nextTicketId = s.tq.nextTicketId := rfl

theorem postOkEffect_procs (s : GState) (i : Nat) (p : Proc) (n h j : Nat) :
    (postOkEffect s i p n h).procs j
      = if j = i then some ⟨p.key, p.ticket, .done (some h)⟩ else s.procs j := rfl

theorem postOkEffect_lockLog (s : GState) (i : Nat) (p : Proc) (n h k : Nat) :
    (postOkEffect s i p n h).lockLog k
      = if k = p.key then ⟨p.ticket, n, h⟩ :: s.lockLog p.key
        else s.lockLog k := rfl

theorem postOkEffect_logs (s : GState) (i : Nat) (p : Proc) (n h : Nat) :
    (postOkEffect s i p n h).enqLog = s.enqLog ∧
    (postOkEffect s i p n h).admLog = s.admLog := ⟨rfl, rfl⟩

theorem postFailEffect_tq (s : GState) (i : Nat) (p : Proc) :
    (postFailEffect s i p).tq = retire s.tq p.key p.ticket := rfl

theorem postFailEffect_procs (s : GState) (i : Nat) (p : Proc) (j : Nat) :
    (postFailEffect s i p).procs j
      = if j = i then some ⟨p.key, p.ticket, .done none⟩ else s.procs j := rfl

theorem postFailEffect_logs (s : GState) (i : Nat) (p : Proc) :
    (postFailEffect s i p).lockLog = s.lockLog ∧
    (postFailEffect s i p).enqLog = s.enqLog ∧
    (postFailEffect s i p).admLog = s.admLog := ⟨rfl, rfl, rfl⟩

theorem inv_enqueue (s : GState) (i : Nat) (p : Proc) (hinv : Inv s)
    (hp : s.procs i = some p) (_hpc : p.pc = .start) :
    Inv (enqueueEffect s i p) := by
  refine ⟨?_, ?_, ?_, ?_, ?_, ?_, ?_, ?_, ?_, ?_, ?_, ?_, ?_, ?_, ?_, ?_,
    ?_, ?_, ?_, ?_, ?_, ?_, ?_⟩
  · intro k t ht
    rw [enqueueEffect_entries] at ht
    rw [enqueueEffect_next]
    by_cases hk : k = p.key
    · subst hk
      rw [if_pos rfl] at ht
      rcases List.mem_append.mp ht with h1 | h1
      · exact Nat.lt_succ_of_lt (hinv.waitFresh _ t h1)
      · simp at h1
        omega
    · rw [if_neg hk] at ht
      exact Nat.lt_succ_of_lt (hinv.waitFresh k t ht)
  · intro j q hq hne
    rw [enqueueEffect_procs] at hq
    rw [enqueueEffect_next]
    by_cases hj : j = i
    · rw [if_pos hj] at hq
      simp only [Option.some.injEq] at hq
      subst hq
      exact Nat.lt_succ_self _
    · rw [if_neg hj] at hq
      exact Nat.lt_succ_of_lt (hinv.procFresh j q hq hne)
  · intro k r hr
    rw [enqueueEffect_lockLog] at hr
    rw [enqueueEffect_next]
    exact Nat.lt_succ_of_lt (hinv.lockLogFresh k r hr)
  · intro k t ht
    rw [enqueueEffect_enqLog] at ht
    rw [enqueueEffect_next]
    by_cases hk : k = p.key
    · subst hk
      rw [if_pos rfl] at ht
      rcases List.mem_append.mp ht with h1 | h1
      · exact Nat.lt_succ_of_lt (hinv.enqFresh _ t h1)
      · simp at h1
        omega
    · rw [if_neg hk] at ht
      exact Nat.lt_succ_of_lt (hinv.enqFresh k t ht)
  · intro k t ht
    rw [enqueueEffect_admLog] at ht
    rw [enqueueEffect_next]
    exact Nat.lt_succ_of_lt (hinv.admFresh k t ht)
  · intro j j' q q' hq hq' hne hne' heq
    rw [enqueueEffect_procs] at hq hq'
    by_cases hj : j = i <;> by_cases hj' : j' = i
    · subst hj
      subst hj'
      rfl
    · subst hj
      rw [if_pos rfl] at hq
      rw [if_neg hj'] at hq'
      simp only [Option.some.injEq] at hq
      subst hq
      exfalso
      have h1 := hinv.procFresh j' q' hq' hne'
      have h2 : s.tq.nextTicketId = q'.ticket := heq
      omega
    · subst hj'
      rw [if_pos rfl] at hq'
      rw [if_neg hj] at hq
      simp only [Option.some.injEq] at hq'
      subst hq'
      exfalso
      have h1 := hinv.procFresh j q hq hne
      have h2 : q.ticket = s.tq.nextTicketId := heq
      omega
    · rw [if_neg hj] at hq
      rw [if_neg hj'] at hq'
      exact hinv.ticketUnique j j' q q' hq hq' hne hne' heq
  · intro k
    rw [enqueueEffect_entries]
    by_cases hk : k = p.key
    · subst hk
      rw [if_pos rfl]
      show List.Pairwise (· < ·)
        ((s.tq.entries p.key).waiting ++ [s.tq.nextTicketId])
      refine List.pairwise_append.mpr ⟨hinv.waitSorted _, by simp, ?_⟩
      intro a ha b hb
      simp at hb
      subst hb
      exact hinv.waitFresh _ a ha
    · rw [if_neg hk]
      exact hinv.waitSorted k
  · intro k
    rw [enqueueEffect_enqLog]
    by_cases hk : k = p.key
    · subst hk
      rw [if_pos rfl]
      refine List.pairwise_append.mpr ⟨hinv.enqSorted _, by simp, ?_⟩
      intro a ha b hb
      simp at hb
      subst hb
      exact hinv.enqFresh _ a ha
    · rw [if_neg hk]
      exact hinv.enqSorted k
  · intro k
    rw [enqueueEffect_admLog]
    exact hinv.admSorted k
  · intro k a w ha hw
    rw [enqueueEffect_admLog] at ha
    rw [enqueueEffect_entries] at hw
    by_cases hk : k = p.key
    · subst hk
      rw [if_pos rfl] at hw
      rcases List.mem_append.mp hw with h1 | h1
      · exact hinv.admLeWait _ a w ha h1
      · simp at h1
        subst h1
        exact le_of_lt (hinv.admFresh _ a ha)
    · rw [if_neg hk] at hw
      exact hinv.admLeWait k a w ha hw
  · intro k t ht
    rw [enqueueEffect_enqLog] at ht
    rw [enqueueEffect_entries, enqueueEffect_admLog]
    by_cases hk : k = p.key
    · subst hk
      rw [if_pos rfl] at ht
      rw [if_pos rfl]
      rcases List.mem_append.mp ht with h1 | h1
      · rcases hinv.enqCover _ t h1 with h2 | h2
        · exact Or.inl (List.mem_append.mpr (Or.inl h2))
        · exact Or.inr h2
      · exact Or.inl (List.mem_append.mpr (Or.inr h1))
    · rw [if_neg hk] at ht
      rw [if_neg hk]
      exact hinv.enqCover k t ht
  · intro k t ht
    rw [enqueueEffect_entries] at ht
    rw [enqueueEffect_enqLog]
    by_cases hk : k = p.key
    · subst hk
      rw [if_pos rfl] at ht
      rw [if_pos rfl]
      rcases List.mem_append.mp ht with h1 | h1
      · exact List.mem_append.mpr (Or.inl (hinv.waitCover _ t h1))
      · exact List.mem_append.mpr (Or.inr h1)
    · rw [if_neg hk] at ht
      rw [if_neg hk]
      exact hinv.waitCover k t ht
  · intro j q hq hqpc
    rw [enqueueEffect_procs] at hq
    rw [enqueueEffect_admLog]
    by_cases hj : j = i
    · rw [if_pos hj] at hq
      simp only [Option.some.injEq] at hq
      subst hq
      intro hmem
      exact absurd (hinv.admFresh _ _ hmem) (lt_irrefl _)
    · rw [if_neg hj] at hq
      exact hinv.notInAdm j q hq hqpc
  · intro j q hq hcs
    rw [enqueueEffect_procs] at hq
    rw [enqueueEffect_entries]
    by_cases hj : j = i
    · rw [if_pos hj] at hq
      simp only [Option.some.injEq] at hq
      subst hq
      exact absurd hcs (by simp [inCS])
    · rw [if_neg hj] at hq
      by_cases hk : q.key = p.key
      · rw [if_pos hk]
        show (s.tq.entries q.key).lock = none
        exact hinv.csLockFree j q hq hcs
      · rw [if_neg hk]
        exact hinv.csLockFree j q hq hcs
  · intro j q hq hcs
    rw [enqueueEffect_procs] at hq
    rw [enqueueEffect_entries]
    by_cases hj : j = i
    · rw [if_pos hj] at hq
      simp only [Option.some.injEq] at hq
      subst hq
      exact absurd hcs (by simp [inCS])
    · rw [if_neg hj] at hq
      by_cases hk : q.key = p.key
      · rw [if_pos hk]
        show ((s.tq.entries q.key).waiting ++ [s.tq.nextTicketId]).head?
          = some q.ticket
        exact head?_append_of_some (hinv.csHead j q hq hcs)
      · rw [if_neg hk]
        exact hinv.csHead j q hq hcs
  · intro j q hq hcs
    rw [enqueueEffect_procs] at hq
    rw [enqueueEffect_admLog]
    by_cases hj : j = i
    · rw [if_pos hj] at hq
      simp only [Option.some.injEq] at hq
      subst hq
      exact absurd hcs (by simp [inCS])
    · rw [if_neg hj] at hq
      exact hinv.csAdm j q hq hcs
  · intro k r hr
    rw [enqueueEffect_entries] at hr ⊢
    by_cases hk : k = p.key
    · subst hk
      rw [if_pos rfl] at hr ⊢
      have hr' : (s.tq.entries p.key).lock = some r := hr
      show ((s.tq.entries p.key).waiting ++ [s.tq.nextTicketId]).head?
        = some r.ticketId
      exact head?_append_of_some (hinv.lockHead _ r hr')
    · rw [if_neg hk] at hr ⊢
      exact hinv.lockHead k r hr
  · intro k r hr
    rw [enqueueEffect_entries] at hr
    rw [enqueueEffect_lockLog]
    by_cases hk : k = p.key
    · subst hk
      rw [if_pos rfl] at hr
      exact hinv.lockListed _ r hr
    · rw [if_neg hk] at hr
      exact hinv.lockListed k r hr
  · intro k r hr
    rw [enqueueEffect_lockLog] at hr
    rw [enqueueEffect_admLog]
    exact hinv.lockLogAdm k r hr
  · intro k r j q hr hq hne heq
    rw [enqueueEffect_lockLog] at hr
    rw [enqueueEffect_procs] at hq
    by_cases hj : j = i
    · rw [if_pos hj] at hq
      simp only [Option.some.injEq] at hq
      subst hq
      exfalso
      have hfresh := hinv.lockLogFresh k r hr
      have h2 : s.tq.nextTicketId = r.ticketId := heq
      omega
    · rw [if_neg hj] at hq
      exact hinv.lockLogDone k r j q hr hq hne heq
  · intro j q cur hq hqpc
    rw [enqueueEffect_procs] at hq
    rw [enqueueEffect_lockLog]
    by_cases hj : j = i
    · rw [if_pos hj] at hq
      simp only [Option.some.injEq] at hq
      subst hq
      simp at hqpc
    · rw [if_neg hj] at hq
      exact hinv.probeListed j q cur hq hqpc
  · intro k
    rw [enqueueEffect_lockLog]
    exact hinv.nonceChain k
  · intro j q n hq hqpc
    rw [enqueueEffect_procs] at hq
    rw [enqueueEffect_lockLog]
    by_cases hj : j = i
    · rw [if_pos hj] at hq
      simp only [Option.some.injEq] at hq
      subst hq
      simp at hqpc
    · rw [if_neg hj] at hq
      exact hinv.readyNonce j q n hq hqpc

theorem inv_grant (s : GState) (i : Nat) (p : Proc) (hinv : Inv s)
    (hp : s.procs i = some p) (hpc : p.pc = .polling)
    (hlock : isLocked s.tq p.key = false)
    (hnext : isNextInQueue s.tq p.key p.ticket = true) :
    Inv (grantEffect s i p) := by
  have hpne : p.pc ≠ .start := by rw [hpc]; simp
  have hlock' : (s.tq.entries p.key).lock = none := by
    unfold isLocked at hlock
    cases h : (s.tq.entries p.key).lock with
    | none => rfl
    | some r => rw [h] at hlock; simp at hlock
  have hnext' : (s.tq.entries p.key).waiting.head? = some p.ticket := by
    unfold isNextInQueue at hnext
    exact beq_iff_eq.mp hnext
  have htickmem : p.ticket ∈ (s.tq.entries p.key).waiting := mem_of_head? hnext'
  have hpnotadm : p.ticket ∉ s.admLog p.key :=
    hinv.notInAdm i p hp (Or.inl hpc)
  refine ⟨?_, ?_, ?_, ?_, ?_, ?_, ?_, ?_, ?_, ?_, ?_, ?_, ?_, ?_, ?_, ?_,
    ?_, ?_, ?_, ?_, ?_, ?_, ?_⟩
  · intro k t ht
    rw [grantEffect_tq] at ht ⊢
    exact hinv.waitFresh k t ht
  · intro j q hq hne
    rw [grantEffect_procs] at hq
    rw [grantEffect_tq]
    by_cases hj : j = i
    · rw [if_pos hj] at hq
      simp only [Option.some.injEq] at hq
      subst hq
      exact hinv.procFresh i p hp hpne
    · rw [if_neg hj] at hq
      exact hinv.procFresh j q hq hne
  · intro k r hr
    rw [grantEffect_lockLog] at hr
    rw [grantEffect_tq]
    exact hinv.lockLogFresh k r hr
  · intro k t ht
    rw [grantEffect_enqLog] at ht
    rw [grantEffect_tq]
    exact hinv.enqFresh k t ht
  · intro k t ht
    rw [grantEffect_admLog] at ht
    rw [grantEffect_tq]
    by_cases hk : k = p.key
    · subst hk
      rw [if_pos rfl] at ht
      rcases List.mem_append.mp ht with h1 | h1
      · exact hinv.admFresh _ t h1
      · simp at h1
        subst h1
        exact hinv.procFresh i p hp hpne
    · rw [if_neg hk] at ht
      exact hinv.admFresh k t ht
  · intro j j' q q' hq hq' hne hne' heq
    rw [grantEffect_procs] at hq hq'
    by_cases hj : j = i <;> by_cases hj' : j' = i
    · subst hj
      subst hj'
      rfl
    · rw [if_pos hj] at hq
      rw [if_neg hj'] at hq'
      simp only [Option.some.injEq] at hq
      subst hq
      have h2 : p.ticket = q'.ticket := heq
      rw [hj]
      exact hinv.ticketUnique i j' p q' hp hq' hpne hne' h2
    · rw [if_pos hj'] at hq'
      rw [if_neg hj] at hq
      simp only [Option.some.injEq] at hq'
      subst hq'
      have h2 : q.ticket = p.ticket := heq
      rw [hj']
      exact hinv.ticketUnique j i q p hq hp hne hpne h2
    · rw [if_neg hj] at hq
      rw [if_neg hj'] at hq'
      exact hinv.ticketUnique j j' q q' hq hq' hne hne' heq
  · intro k
    rw [grantEffect_tq]
    exact hinv.waitSorted k
  · intro k
    rw [grantEffect_enqLog]
    exact hinv.enqSorted k
  · intro k
    rw [grantEffect_admLog]
    by_cases hk : k = p.key
    · subst hk
      rw [if_pos rfl]
      refine List.pairwise_append.mpr ⟨hinv.admSorted _, by simp, ?_⟩
      intro a ha b hb
      simp at hb
      subst hb
      refine lt_of_le_of_ne (hinv.admLeWait _ a _ ha htickmem) ?_
      intro hab
      exact hpnotadm (hab ▸ ha)
    · rw [if_neg hk]
      exact hinv.admSorted k
  · intro k a w ha hw
    rw [grantEffect_admLog] at ha
    rw [grantEffect_tq] at hw
    by_cases hk : k = p.key
    · subst hk
      rw [if_pos rfl] at ha
      rcases List.mem_append.mp ha with h1 | h1
      · exact hinv.admLeWait _ a w h1 hw
      · simp at h1
        subst h1
        exact head_le_of_sorted (hinv.waitSorted _) hnext' hw
    · rw [if_neg hk] at ha
      exact hinv.admLeWait k a w ha hw
  · intro k t ht
    rw [grantEffect_enqLog] at ht
    rw [grantEffect_tq, grantEffect_admLog]
    by_cases hk : k = p.key
    · subst hk
      rw [if_pos rfl]
      rcases hinv.enqCover _ t ht with h2 | h2
      · exact Or.inl h2
      · exact Or.inr (List.mem_append.mpr (Or.inl h2))
    · rw [if_neg hk]
      exact hinv.enqCover k t ht
  · intro k t ht
    rw [grantEffect_tq] at ht
    rw [grantEffect_enqLog]
    exact hinv.waitCover k t ht
  · intro j q hq hqpc
    rw [grantEffect_procs] at hq
    rw [grantEffect_admLog]
    by_cases hj : j = i
    · rw [if_pos hj] at hq
      simp only [Option.some.injEq] at hq
      subst hq
      rcases hqpc with h1 | ⟨c, h1⟩ <;> simp at h1
    · rw [if_neg hj] at hq
      have hqne : q.pc ≠ .start := by
        rcases hqpc with h1 | ⟨c, h1⟩ <;> rw [h1] <;> simp
      by_cases hk : q.key = p.key
      · rw [hk, if_pos rfl]
        intro hmem
        rcases List.mem_append.mp hmem with h1 | h1
        · exact hinv.notInAdm j q hq hqpc (hk ▸ h1)
        · simp at h1
          exact hj (hinv.ticketUnique j i q p hq hp hqne hpne h1)
      · rw [if_neg hk]
        exact hinv.notInAdm j q hq hqpc
  · intro j q hq hcs
    rw [grantEffect_procs] at hq
    rw [grantEffect_tq]
    by_cases hj : j = i
    · rw [if_pos hj] at hq
      simp only [Option.some.injEq] at hq
      subst hq
      exact hlock'
    · rw [if_neg hj] at hq
      exact hinv.csLockFree j q hq hcs
  · intro j q hq hcs
    rw [grantEffect_procs] at hq
    rw [grantEffect_tq]
    by_cases hj : j = i
    · rw [if_pos hj] at hq
      simp only [Option.some.injEq] at hq
      subst hq
      exact hnext'
    · rw [if_neg hj] at hq
      exact hinv.csHead j q hq hcs
  · intro j q hq hcs
    rw [grantEffect_procs] at hq
    rw [grantEffect_admLog]
    by_cases hj : j = i
    · rw [if_pos hj] at hq
      simp only [Option.some.injEq] at hq
      subst hq
      show p.ticket ∈ (if p.key = p.key then s.admLog p.key ++ [p.ticket]
        else s.admLog p.key)
      rw [if_pos rfl]
      exact List.mem_append.mpr (Or.inr (by simp))
    · rw [if_neg hj] at hq
      have h2 := hinv.csAdm j q hq hcs
      by_cases hk : q.key = p.key
      · rw [hk, if_pos rfl]
        exact List.mem_append.mpr (Or.inl (hk ▸ h2))
      · rw [if_neg hk]
        exact h2
  · intro k r hr
    rw [grantEffect_tq] at hr ⊢
    exact hinv.lockHead k r hr
  · intro k r hr
    rw [grantEffect_tq] at hr
    rw [grantEffect_lockLog]
    exact hinv.lockListed k r hr
  · intro k r hr
    rw [grantEffect_lockLog] at hr
    rw [grantEffect_admLog]
    have h2 := hinv.lockLogAdm k r hr
    by_cases hk : k = p.key
    · subst hk
      rw [if_pos rfl]
      exact List.mem_append.mpr (Or.inl h2)
    · rw [if_neg hk]
      exact h2
  · intro k r j q hr hq hne heq
    rw [grantEffect_lockLog] at hr
    rw [grantEffect_procs] at hq
    by_cases hj : j = i
    · rw [if_pos hj] at hq
      simp only [Option.some.injEq] at hq
      subst hq
      exfalso
      have h2 : p.ticket = r.ticketId := heq
      rcases hinv.lockLogDone k r i p hr hp hpne h2 with ⟨res, hres⟩
      rw [hpc] at hres
      simp at hres
    · rw [if_neg hj] at hq
      exact hinv.lockLogDone k r j q hr hq hne heq
  · intro j q cur hq hqpc
    rw [grantEffect_procs] at hq
    rw [grantEffect_lockLog]
    by_cases hj : j = i
    · rw [if_pos hj] at hq
      simp only [Option.some.injEq] at hq
      subst hq
      simp at hqpc
    · rw [if_neg hj] at hq
      exact hinv.probeListed j q cur hq hqpc
  · intro k
    rw [grantEffect_lockLog]
    exact hinv.nonceChain k
  · intro j q n hq hqpc
    rw [grantEffect_procs] at hq
    rw [grantEffect_lockLog]
    by_cases hj : j = i
    · rw [if_pos hj] at hq
      simp only [Option.some.injEq] at hq
      subst hq
      simp at hqpc
    · rw [if_neg hj] at hq
      exact hinv.readyNonce j q n hq hqpc

theorem inv_probeStart (s : GState) (i : Nat) (p : Proc) (cur : LockRec)
    (hinv : Inv s) (hp : s.procs i = some p) (hpc : p.pc = .polling)
    (hcur : getCurrentTransaction s.tq p.key = some cur) :
    Inv (probeStartEffect s i p cur) := by
  have hpne : p.pc ≠ .start := by rw [hpc]; simp
  have hcur' : (s.tq.entries p.key).lock = some cur := hcur
  refine ⟨?_, ?_, ?_, ?_, ?_, ?_, ?_, ?_, ?_, ?_, ?_, ?_, ?_, ?_, ?_, ?_,
    ?_, ?_, ?_, ?_, ?_, ?_, ?_⟩
  · intro k t ht
    rw [probeStartEffect_tq] at ht ⊢
    exact hinv.waitFresh k t ht
  · intro j q hq hne
    rw [probeStartEffect_procs] at hq
    rw [probeStartEffect_tq]
    by_cases hj : j = i
    · rw [if_pos hj] at hq
      simp only [Option.some.injEq] at hq
      subst hq
      exact hinv.procFresh i p hp hpne
    · rw [if_neg hj] at hq
      exact hinv.procFresh j q hq hne
  · intro k r hr
    rw [(probeStartEffect_logs s i p cur).1] at hr
    rw [probeStartEffect_tq]
    exact hinv.lockLogFresh k r hr
  · intro k t ht
    rw [(probeStartEffect_logs s i p cur).2.1] at ht
    rw [probeStartEffect_tq]
    exact hinv.enqFresh k t ht
  · intro k t ht
    rw [(probeStartEffect_logs s i p cur).2.2] at ht
    rw [probeStartEffect_tq]
    exact hinv.admFresh k t ht
  · intro j j' q q' hq hq' hne hne' heq
    rw [probeStartEffect_procs] at hq hq'
    by_cases hj : j = i <;> by_cases hj' : j' = i
    · rw [hj, hj']
    · rw [if_pos hj] at hq
      rw [if_neg hj'] at hq'
      simp only [Option.some.injEq] at hq
      subst hq
      have h2 : p.ticket = q'.ticket := heq
      rw [hj]
      exact hinv.ticketUnique i j' p q' hp hq' hpne hne' h2
    · rw [if_pos hj'] at hq'
      rw [if_neg hj] at hq
      simp only [Option.some.injEq] at hq'
      subst hq'
      have h2 : q.ticket = p.ticket := heq
      rw [hj']
      exact hinv.ticketUnique j i q p hq hp hne hpne h2
    · rw [if_neg hj] at hq
      rw [if_neg hj'] at hq'
      exact hinv.ticketUnique j j' q q' hq hq' hne hne' heq
  · intro k
    rw [probeStartEffect_tq]
    exact hinv.waitSorted k
  · intro k
    rw [(probeStartEffect_logs s i p cur).2.1]
    exact hinv.enqSorted k
  · intro k
    rw [(probeStartEffect_logs s i p cur).2.2]
    exact hinv.admSorted k
  · intro k a w ha hw
    rw [(probeStartEffect_logs s i p cur).2.2] at ha
    rw [probeStartEffect_tq] at hw
    exact hinv.admLeWait k a w ha hw
  · intro k t ht
    rw [(probeStartEffect_logs s i p cur).2.1] at ht
    rw [probeStartEffect_tq, (probeStartEffect_logs s i p cur).2.2]
    exact hinv.enqCover k t ht
  · intro k t ht
    rw [probeStartEffect_tq] at ht
    rw [(probeStartEffect_logs s i p cur).2.1]
    exact hinv.waitCover k t ht
  · intro j q hq hqpc
    rw [probeStartEffect_procs] at hq
    rw [(probeStartEffect_logs s i p cur).2.2]
    by_cases hj : j = i
    · rw [if_pos hj] at hq
      simp only [Option.some.injEq] at hq
      subst hq
      exact hinv.notInAdm i p hp (Or.inl hpc)
    · rw [if_neg hj] at hq
      exact hinv.notInAdm j q hq hqpc
  · intro j q hq hcs
    rw [probeStartEffect_procs] at hq
    rw [probeStartEffect_tq]
    by_cases hj : j = i
    · rw [if_pos hj] at hq
      simp only [Option.some.injEq] at hq
      subst hq
      exact absurd hcs (by simp [inCS])
    · rw [if_neg hj] at hq
      exact hinv.csLockFree j q hq hcs
  · intro j q hq hcs
    rw [probeStartEffect_procs] at hq
    rw [probeStartEffect_tq]
    by_cases hj : j = i
    · rw [if_pos hj] at hq
      simp only [Option.some.injEq] at hq
      subst hq
      exact absurd hcs (by simp [inCS])
    · rw [if_neg hj] at hq
      exact hinv.csHead j q hq hcs
  · intro j q hq hcs
    rw [probeStartEffect_procs] at hq
    rw [(probeStartEffect_logs s i p cur).2.2]
    by_cases hj : j = i
    · rw [if_pos hj] at hq
      simp only [Option.some.injEq] at hq
      subst hq
      exact absurd hcs (by simp [inCS])
    · rw [if_neg hj] at hq
      exact hinv.csAdm j q hq hcs
  · intro k r hr
    rw [probeStartEffect_tq] at hr ⊢
    exact hinv.lockHead k r hr
  · intro k r hr
    rw [probeStartEffect_tq] at hr
    rw [(probeStartEffect_logs s i p cur).1]
    exact hinv.lockListed k r hr
  · intro k r hr
    rw [(probeStartEffect_logs s i p cur).1] at hr
    rw [(probeStartEffect_logs s i p cur).2.2]
    exact hinv.lockLogAdm k r hr
  · intro k r j q hr hq hne heq
    rw [(probeStartEffect_logs s i p cur).1] at hr
    rw [probeStartEffect_procs] at hq
    by_cases hj : j = i
    · rw [if_pos hj] at hq
      simp only [Option.some.injEq] at hq
      subst hq
      exfalso
      have h2 : p.ticket = r.ticketId := heq
      rcases hinv.lockLogDone k r i p hr hp hpne h2 with ⟨res, hres⟩
      rw [hpc] at hres
      simp at hres
    · rw [if_neg hj] at hq
      exact hinv.lockLogDone k r j q hr hq hne heq
  · intro j q c hq hqpc
    rw [probeStartEffect_procs] at hq
    rw [(probeStartEffect_logs s i p cur).1]
    by_cases hj : j = i
    · rw [if_pos hj] at hq
      simp only [Option.some.injEq] at hq
      subst hq
      have hc : cur = c := by simpa using hqpc
      subst hc
      exact hinv.lockListed _ cur hcur'
    · rw [if_neg hj] at hq
      exact hinv.probeListed j q c hq hqpc
  · intro k
    rw [(probeStartEffect_logs s i p cur).1]
    exact hinv.nonceChain k
  · intro j q n hq hqpc
    rw [probeStartEffect_procs] at hq
    rw [(probeStartEffect_logs s i p cur).1]
    by_cases hj : j = i
    · rw [if_pos hj] at hq
      simp only [Option.some.injEq] at hq
      subst hq
      simp at hqpc
    · rw [if_neg hj] at hq
      exact hinv.readyNonce j q n hq hqpc

theorem inv_probeMiss (s : GState) (i : Nat) (p : Proc) (cur : LockRec)
    (hinv : Inv s) (hp : s.procs i = some p) (hpc : p.pc = .probing cur) :
    Inv (probeMissEffect s i p) := by
  have hpne : p.pc ≠ .start := by rw [hpc]; simp
  refine ⟨?_, ?_, ?_, ?_, ?_, ?_, ?_, ?_, ?_, ?_, ?_, ?_, ?_, ?_, ?_, ?_,
    ?_, ?_, ?_, ?_, ?_, ?_, ?_⟩
  · intro k t ht
    rw [probeMissEffect_tq] at ht ⊢
    exact hinv.waitFresh k t ht
  · intro j q hq hne
    rw [probeMissEffect_procs] at hq
    rw [probeMissEffect_tq]
    by_cases hj : j = i
    · rw [if_pos hj] at hq
      simp only [Option.some.injEq] at hq
      subst hq
      exact hinv.procFresh i p hp hpne
    · rw [if_neg hj] at hq
      exact hinv.procFresh j q hq hne
  · intro k r hr
    rw [(probeMissEffect_logs s i p).1] at hr
    rw [probeMissEffect_tq]
    exact hinv.lockLogFresh k r hr
  · intro k t ht
    rw [(probeMissEffect_logs s i p).2.1] at ht
    rw [probeMissEffect_tq]
    exact hinv.enqFresh k t ht
  · intro k t ht
    rw [(probeMissEffect_logs s i p).2.2] at ht
    rw [probeMissEffect_tq]
    exact hinv.admFresh k t ht
  · intro j j' q q' hq hq' hne hne' heq
    rw [probeMissEffect_procs] at hq hq'
    by_cases hj : j = i <;> by_cases hj' : j' = i
    · rw [hj, hj']
    · rw [if_pos hj] at hq
      rw [if_neg hj'] at hq'
      simp only [Option.some.injEq] at hq
      subst hq
      have h2 : p.ticket = q'.ticket := heq
      rw [hj]
      exact hinv.ticketUnique i j' p q' hp hq' hpne hne' h2
    · rw [if_pos hj'] at hq'
      rw [if_neg hj] at hq
      simp only [Option.some.injEq] at hq'
      subst hq'
      have h2 : q.ticket = p.ticket := heq
      rw [hj']
      exact hinv.ticketUnique j i q p hq hp hne hpne h2
    · rw [if_neg hj] at hq
      rw [if_neg hj'] at hq'
      exact hinv.ticketUnique j j' q q' hq hq' hne hne' heq
  · intro k
    rw [probeMissEffect_tq]
    exact hinv.waitSorted k
  · intro k
    rw [(probeMissEffect_logs s i p).2.1]
    exact hinv.enqSorted k
  · intro k
    rw [(probeMissEffect_logs s i p).2.2]
    exact hinv.admSorted k
  · intro k a w ha hw
    rw [(probeMissEffect_logs s i p).2.2] at ha
    rw [probeMissEffect_tq] at hw
    exact hinv.admLeWait k a w ha hw
  · intro k t ht
    rw [(probeMissEffect_logs s i p).2.1] at ht
    rw [probeMissEffect_tq, (probeMissEffect_logs s i p).2.2]
    exact hinv.enqCover k t ht
  · intro k t ht
    rw [probeMissEffect_tq] at ht
    rw [(probeMissEffect_logs s i p).2.1]
    exact hinv.waitCover k t ht
  · intro j q hq hqpc
    rw [probeMissEffect_procs] at hq
    rw [(probeMissEffect_logs s i p).2.2]
    by_cases hj : j = i
    · rw [if_pos hj] at hq
      simp only [Option.some.injEq] at hq
      subst hq
      exact hinv.notInAdm i p hp (Or.inr ⟨cur, hpc⟩)
    · rw [if_neg hj] at hq
      exact hinv.notInAdm j q hq hqpc
  · intro j q hq hcs
    rw [probeMissEffect_procs] at hq
    rw [probeMissEffect_tq]
    by_cases hj : j = i
    · rw [if_pos hj] at hq
      simp only [Option.some.injEq] at hq
      subst hq
      exact absurd hcs (by simp [inCS])
    · rw [if_neg hj] at hq
      exact hinv.csLockFree j q hq hcs
  · intro j q hq hcs
    rw [probeMissEffect_procs] at hq
    rw [probeMissEffect_tq]
    by_cases hj : j = i
    · rw [if_pos hj] at hq
      simp only [Option.some.injEq] at hq
      subst hq
      exact absurd hcs (by simp [inCS])
    · rw [if_neg hj] at hq
      exact hinv.csHead j q hq hcs
  · intro j q hq hcs
    rw [probeMissEffect_procs] at hq
    rw [(probeMissEffect_logs s i p).2.2]
    by_cases hj : j = i
    · rw [if_pos hj] at hq
      simp only [Option.some.injEq] at hq
      subst hq
      exact absurd hcs (by simp [inCS])
    · rw [if_neg hj] at hq
      exact hinv.csAdm j q hq hcs
  · intro k r hr
    rw [probeMissEffect_tq] at hr ⊢
    exact hinv.lockHead k r hr
  · intro k r hr
    rw [probeMissEffect_tq] at hr
    rw [(probeMissEffect_logs s i p).1]
    exact hinv.lockListed k r hr
  · intro k r hr
    rw [(probeMissEffect_logs s i p).1] at hr
    rw [(probeMissEffect_logs s i p).2.2]
    exact hinv.lockLogAdm k r hr
  · intro k r j q hr hq hne heq
    rw [(probeMissEffect_logs s i p).1] at hr
    rw [probeMissEffect_procs] at hq
    by_cases hj : j = i
    · rw [if_pos hj] at hq
      simp only [Option.some.injEq] at hq
      subst hq
      exfalso
      have h2 : p.ticket = r.ticketId := heq
      rcases hinv.lockLogDone k r i p hr hp hpne h2 with ⟨res, hres⟩
      rw [hpc] at hres
      simp at hres
    · rw [if_neg hj] at hq
      exact hinv.lockLogDone k r j q hr hq hne heq
  · intro j q c hq hqpc
    rw [probeMissEffect_procs] at hq
    rw [(probeMissEffect_logs s i p).1]
    by_cases hj : j = i
    · rw [if_pos hj] at hq
      simp only [Option.some.injEq] at hq
      subst hq
      simp at hqpc
    · rw [if_neg hj] at hq
      exact hinv.probeListed j q c hq hqpc
  · intro k
    rw [(probeMissEffect_logs s i p).1]
    exact hinv.nonceChain k
  · intro j q n hq hqpc
    rw [probeMissEffect_procs] at hq
    rw [(probeMissEffect_logs s i p).1]
    by_cases hj : j = i
    · rw [if_pos hj] at hq
      simp only [Option.some.injEq] at hq
      subst hq
      simp at hqpc
    · rw [if_neg hj] at hq
      exact hinv.readyNonce j q n hq hqpc

theorem inv_getNonce (s : GState) (i : Nat) (p : Proc) (n : Nat)
    (hinv : Inv s) (hp : s.procs i = some p) (hpc : p.pc = .admitted)
    (hn : n = nextNonceOf (s.lockLog p.key)) :
    Inv (nonceEffect s i p n) := by
  have hpne : p.pc ≠ .start := by rw [hpc]; simp
  have hpcs : inCS p.pc := by rw [hpc]; trivial
  refine ⟨?_, ?_, ?_, ?_, ?_, ?_, ?_, ?_, ?_, ?_, ?_, ?_, ?_, ?_, ?_, ?_,
    ?_, ?_, ?_, ?_, ?_, ?_, ?_⟩
  · intro k t ht
    rw [nonceEffect_tq] at ht ⊢
    exact hinv.waitFresh k t ht
  · intro j q hq hne
    rw [nonceEffect_procs] at hq
    rw [nonceEffect_tq]
    by_cases hj : j = i
    · rw [if_pos hj] at hq
      simp only [Option.some.injEq] at hq
      subst hq
      exact hinv.procFresh i p hp hpne
    · rw [if_neg hj] at hq
      exact hinv.procFresh j q hq hne
  · intro k r hr
    rw [(nonceEffect_logs s i p n).1] at hr
    rw [nonceEffect_tq]
    exact hinv.lockLogFresh k r hr
  · intro k t ht
    rw [(nonceEffect_logs s i p n).2.1] at ht
    rw [nonceEffect_tq]
    exact hinv.enqFresh k t ht
  · intro k t ht
    rw [(nonceEffect_logs s i p n).2.2] at ht
    rw [nonceEffect_tq]
    exact hinv.admFresh k t ht
  · intro j j' q q' hq hq' hne hne' heq
    rw [nonceEffect_procs] at hq hq'
    by_cases hj : j = i <;> by_cases hj' : j' = i
    · rw [hj, hj']
    · rw [if_pos hj] at hq
      rw [if_neg hj'] at hq'
      simp only [Option.some.injEq] at hq
      subst hq
      have h2 : p.ticket = q'.ticket := heq
      rw [hj]
      exact hinv.ticketUnique i j' p q' hp hq' hpne hne' h2
    · rw [if_pos hj'] at hq'
      rw [if_neg hj] at hq
      simp only [Option.some.injEq] at hq'
      subst hq'
      have h2 : q.ticket = p.ticket := heq
      rw [hj']
      exact hinv.ticketUnique j i q p hq hp hne hpne h2
    · rw [if_neg hj] at hq
      rw [if_neg hj'] at hq'
      exact hinv.ticketUnique j j' q q' hq hq' hne hne' heq
  · intro k
    rw [nonceEffect_tq]
    exact hinv.waitSorted k
  · intro k
    rw [(nonceEffect_logs s i p n).2.1]
    exact hinv.enqSorted k
  · intro k
    rw [(nonceEffect_logs s i p n).2.2]
    exact hinv.admSorted k
  · intro k a w ha hw
    rw [(nonceEffect_logs s i p n).2.2] at ha
    rw [nonceEffect_tq] at hw
    exact hinv.admLeWait k a w ha hw
  · intro k t ht
    rw [(nonceEffect_logs s i p n).2.1] at ht
    rw [nonceEffect_tq, (nonceEffect_logs s i p n).2.2]
    exact hinv.enqCover k t ht
  · intro k t ht
    rw [nonceEffect_tq] at ht
    rw [(nonceEffect_logs s i p n).2.1]
    exact hinv.waitCover k t ht
  · intro j q hq hqpc
    rw [nonceEffect_procs] at hq
    rw [(nonceEffect_logs s i p n).2.2]
    by_cases hj : j = i
    · rw [if_pos hj] at hq
      simp only [Option.some.injEq] at hq
      subst hq
      rcases hqpc with h1 | ⟨c, h1⟩ <;> simp at h1
    · rw [if_neg hj] at hq
      exact hinv.notInAdm j q hq hqpc
  · intro j q hq hcs
    rw [nonceEffect_procs] at hq
    rw [nonceEffect_tq]
    by_cases hj : j = i
    · rw [if_pos hj] at hq
      simp only [Option.some.injEq] at hq
      subst hq
      exact hinv.csLockFree i p hp hpcs
    · rw [if_neg hj] at hq
      exact hinv.csLockFree j q hq hcs
  · intro j q hq hcs
    rw [nonceEffect_procs] at hq
    rw [nonceEffect_tq]
    by_cases hj : j = i
    · rw [if_pos hj] at hq
      simp only [Option.some.injEq] at hq
      subst hq
      exact hinv.csHead i p hp hpcs
    · rw [if_neg hj] at hq
      exact hinv.csHead j q hq hcs
  · intro j q hq hcs
    rw [nonceEffect_procs] at hq
    rw [(nonceEffect_logs s i p n).2.2]
    by_cases hj : j = i
    · rw [if_pos hj] at hq
      simp only [Option.some.injEq] at hq
      subst hq
      exact hinv.csAdm i p hp hpcs
    · rw [if_neg hj] at hq
      exact hinv.csAdm j q hq hcs
  · intro k r hr
    rw [nonceEffect_tq] at hr ⊢
    exact hinv.lockHead k r hr
  · intro k r hr
    rw [nonceEffect_tq] at hr
    rw [(nonceEffect_logs s i p n).1]
    exact hinv.lockListed k r hr
  · intro k r hr
    rw [(nonceEffect_logs s i p n).1] at hr
    rw [(nonceEffect_logs s i p n).2.2]
    exact hinv.lockLogAdm k r hr
  · intro k r j q hr hq hne heq
    rw [(nonceEffect_logs s i p n).1] at hr
    rw [nonceEffect_procs] at hq
    by_cases hj : j = i
    · rw [if_pos hj] at hq
      simp only [Option.some.injEq] at hq
      subst hq
      exfalso
      have h2 : p.ticket = r.ticketId := heq
      rcases hinv.lockLogDone k r i p hr hp hpne h2 with ⟨res, hres⟩
      rw [hpc] at hres
      simp at hres
    · rw [if_neg hj] at hq
      exact hinv.lockLogDone k r j q hr hq hne heq
  · intro j q c hq hqpc
    rw [nonceEffect_procs] at hq
    rw [(nonceEffect_logs s i p n).1]
    by_cases hj : j = i
    · rw [if_pos hj] at hq
      simp only [Option.some.injEq] at hq
      subst hq
      simp at hqpc
    · rw [if_neg hj] at hq
      exact hinv.probeListed j q c hq hqpc
  · intro k
    rw [(nonceEffect_logs s i p n).1]
    exact hinv.nonceChain k
  · intro j q n0 hq hqpc
    rw [nonceEffect_procs] at hq
    rw [(nonceEffect_logs s i p n).1]
    by_cases hj : j = i
    · rw [if_pos hj] at hq
      simp only [Option.some.injEq] at hq
      subst hq
      have hn0 : n = n0 := by simpa using hqpc
      subst hn0
      exact hn
    · rw [if_neg hj] at hq
      exact hinv.readyNonce j q n0 hq hqpc

theorem inv_probeConfirm (s : GState) (i : Nat) (p : Proc) (cur : LockRec)
    (hinv : Inv s) (hp : s.procs i = some p) (hpc : p.pc = .probing cur)
    (hlisted : cur ∈ s.lockLog p.key) :
    Inv (probeConfirmEffect s i p cur) := by
  have hpne : p.pc ≠ .start := by rw [hpc]; simp
  have hcadm : cur.ticketId ∈ s.admLog p.key := hinv.lockLogAdm _ cur hlisted
  have hcdone : ∀ j q, s.procs j = some q → q.pc ≠ .start →
      q.ticket = cur.ticketId → ∃ res, q.pc = .done res :=
    fun j q hq hne heq => hinv.lockLogDone _ cur j q hlisted hq hne heq
  refine ⟨?_, ?_, ?_, ?_, ?_, ?_, ?_, ?_, ?_, ?_, ?_, ?_, ?_, ?_, ?_, ?_,
    ?_, ?_, ?_, ?_, ?_, ?_, ?_⟩
  · intro k t ht
    rw [probeConfirmEffect_tq] at ht ⊢
    rw [retire_nextTicketId]
    by_cases hk : k = p.key
    · subst hk
      rw [retire_waiting] at ht
      exact hinv.waitFresh _ t (mem_filter_ne.mp ht).1
    · rw [retire_entries_other _ _ _ hk] at ht
      exact hinv.waitFresh k t ht
  · intro j q hq hne
    rw [probeConfirmEffect_procs] at hq
    rw [probeConfirmEffect_tq, retire_nextTicketId]
    by_cases hj : j = i
    · rw [if_pos hj] at hq
      simp only [Option.some.injEq] at hq
      subst hq
      exact hinv.procFresh i p hp hpne
    · rw [if_neg hj] at hq
      exact hinv.procFresh j q hq hne
  · intro k r hr
    rw [(probeConfirmEffect_logs s i p cur).1] at hr
    rw [probeConfirmEffect_tq, retire_nextTicketId]
    exact hinv.lockLogFresh k r hr
  · intro k t ht
    rw [(probeConfirmEffect_logs s i p cur).2.1] at ht
    rw [probeConfirmEffect_tq, retire_nextTicketId]
    exact hinv.enqFresh k t ht
  · intro k t ht
    rw [(probeConfirmEffect_logs s i p cur).2.2] at ht
    rw [probeConfirmEffect_tq, retire_nextTicketId]
    exact hinv.admFresh k t ht
  · intro j j' q q' hq hq' hne hne' heq
    rw [probeConfirmEffect_procs] at hq hq'
    by_cases hj : j = i <;> by_cases hj' : j' = i
    · rw [hj, hj']
    · rw [if_pos hj] at hq
      rw [if_neg hj'] at hq'
      simp only [Option.some.injEq] at hq
      subst hq
      have h2 : p.ticket = q'.ticket := heq
      rw [hj]
      exact hinv.ticketUnique i j' p q' hp hq' hpne hne' h2
    · rw [if_pos hj'] at hq'
      rw [if_neg hj] at hq
      simp only [Option.some.injEq] at hq'
      subst hq'
      have h2 : q.ticket = p.ticket := heq
      rw [hj']
      exact hinv.ticketUnique j i q p hq hp hne hpne h2
    · rw [if_neg hj] at hq
      rw [if_neg hj'] at hq'
      exact hinv.ticketUnique j j' q q' hq hq' hne hne' heq
  · intro k
    rw [probeConfirmEffect_tq]
    by_cases hk : k = p.key
    · subst hk
      rw [retire_waiting]
      exact List.Pairwise.sublist (List.filter_sublist _) (hinv.waitSorted _)
    · rw [retire_entries_other _ _ _ hk]
      exact hinv.waitSorted k
  · intro k
    rw [(probeConfirmEffect_logs s i p cur).2.1]
    exact hinv.enqSorted k
  · intro k
    rw [(probeConfirmEffect_logs s i p cur).2.2]
    exact hinv.admSorted k
  · intro k a w ha hw
    rw [(probeConfirmEffect_logs s i p cur).2.2] at ha
    rw [probeConfirmEffect_tq] at hw
    by_cases hk : k = p.key
    · subst hk
      rw [retire_waiting] at hw
      exact hinv.admLeWait _ a w ha (mem_filter_ne.mp hw).1
    · rw [retire_entries_other _ _ _ hk] at hw
      exact hinv.admLeWait k a w ha hw
  · intro k t ht
    rw [(probeConfirmEffect_logs s i p cur).2.1] at ht
    rw [probeConfirmEffect_tq, (probeConfirmEffect_logs s i p cur).2.2]
    by_cases hk : k = p.key
    · subst hk
      rw [retire_waiting]
      rcases hinv.enqCover _ t ht with h2 | h2
      · by_cases htc : t = cur.ticketId
        · subst htc
          exact Or.inr hcadm
        · exact Or.inl (mem_filter_ne.mpr ⟨h2, htc⟩)
      · exact Or.inr h2
    · rw [retire_entries_other _ _ _ hk]
      exact hinv.enqCover k t ht
  · intro k t ht
    rw [probeConfirmEffect_tq] at ht
    rw [(probeConfirmEffect_logs s i p cur).2.1]
    by_cases hk : k = p.key
    · subst hk
      rw [retire_waiting] at ht
      exact hinv.waitCover _ t (mem_filter_ne.mp ht).1
    · rw [retire_entries_other _ _ _ hk] at ht
      exact hinv.waitCover k t ht
  · intro j q hq hqpc
    rw [probeConfirmEffect_procs] at hq
    rw [(probeConfirmEffect_logs s i p cur).2.2]
    by_cases hj : j = i
    · rw [if_pos hj] at hq
      simp only [Option.some.injEq] at hq
      subst hq
      exact hinv.notInAdm i p hp (Or.inr ⟨cur, hpc⟩)
    · rw [if_neg hj] at hq
      exact hinv.notInAdm j q hq hqpc
  · intro j q hq hcs
    rw [probeConfirmEffect_procs] at hq
    rw [probeConfirmEffect_tq]
    by_cases hj : j = i
    · rw [if_pos hj] at hq
      simp only [Option.some.injEq] at hq
      subst hq
      exact absurd hcs (by simp [inCS])
    · rw [if_neg hj] at hq
      by_cases hk : q.key = p.key
      · rw [hk]
        have h2 := hinv.csLockFree j q hq hcs
        rw [hk] at h2
        exact retire_lock_none _ _ _ h2
      · rw [retire_entries_other _ _ _ hk]
        exact hinv.csLockFree j q hq hcs
  · intro j q hq hcs
    rw [probeConfirmEffect_procs] at hq
    rw [probeConfirmEffect_tq]
    by_cases hj : j = i
    · rw [if_pos hj] at hq
      simp only [Option.some.injEq] at hq
      subst hq
      exact absurd hcs (by simp [inCS])
    · rw [if_neg hj] at hq
      have h2 := hinv.csHead j q hq hcs
      by_cases hk : q.key = p.key
      · rw [hk]
        rw [hk] at h2
        rw [retire_waiting]
        refine head?_filter_of_ne h2 ?_
        intro heq
        rcases hcdone j q hq (inCS_ne_start hcs) heq with ⟨res, hres⟩
        exact inCS_ne_done hcs res hres
      · rw [retire_entries_other _ _ _ hk]
        exact h2
  · intro j q hq hcs
    rw [probeConfirmEffect_procs] at hq
    rw [(probeConfirmEffect_logs s i p cur).2.2]
    by_cases hj : j = i
    · rw [if_pos hj] at hq
      simp only [Option.some.injEq] at hq
      subst hq
      exact absurd hcs (by simp [inCS])
    · rw [if_neg hj] at hq
      exact hinv.csAdm j q hq hcs
  · intro k r hr
    rw [probeConfirmEffect_tq] at hr ⊢
    by_cases hk : k = p.key
    · subst hk
      rw [retire_waiting]
      cases h0 : (s.tq.entries p.key).lock with
      | none => rw [retire_lock_none _ _ _ h0] at hr; simp at hr
      | some r0 =>
        by_cases hr0 : r0.ticketId = cur.ticketId
        · rw [retire_lock_match _ _ _ r0 h0 hr0] at hr
          simp at hr
        · rw [retire_lock_nomatch _ _ _ r0 h0 hr0] at hr
          simp only [Option.some.injEq] at hr
          subst hr
          exact head?_filter_of_ne (hinv.lockHead _ r0 h0) hr0
    · rw [retire_entries_other _ _ _ hk] at hr ⊢
      exact hinv.lockHead k r hr
  · intro k r hr
    rw [probeConfirmEffect_tq] at hr
    rw [(probeConfirmEffect_logs s i p cur).1]
    by_cases hk : k = p.key
    · subst hk
      cases h0 : (s.tq.entries p.key).lock with
      | none => rw [retire_lock_none _ _ _ h0] at hr; simp at hr
      | some r0 =>
        by_cases hr0 : r0.ticketId = cur.ticketId
        · rw [retire_lock_match _ _ _ r0 h0 hr0] at hr
          simp at hr
        · rw [retire_lock_nomatch _ _ _ r0 h0 hr0] at hr
          simp only [Option.some.injEq] at hr
          subst hr
          exact hinv.lockListed _ r0 h0
    · rw [retire_entries_other _ _ _ hk] at hr
      exact hinv.lockListed k r hr
  · intro k r hr
    rw [(probeConfirmEffect_logs s i p cur).1] at hr
    rw [(probeConfirmEffect_logs s i p cur).2.2]
    exact hinv.lockLogAdm k r hr
  · intro k r j q hr hq hne heq
    rw [(probeConfirmEffect_logs s i p cur).1] at hr
    rw [probeConfirmEffect_procs] at hq
    by_cases hj : j = i
    · rw [if_pos hj] at hq
      simp only [Option.some.injEq] at hq
      subst hq
      exfalso
      have h2 : p.ticket = r.ticketId := heq
      rcases hinv.lockLogDone k r i p hr hp hpne h2 with ⟨res, hres⟩
      rw [hpc] at hres
      simp at hres
    · rw [if_neg hj] at hq
      exact hinv.lockLogDone k r j q hr hq hne heq
  · intro j q c hq hqpc
    rw [probeConfirmEffect_procs] at hq
    rw [(probeConfirmEffect_logs s i p cur).1]
    by_cases hj : j = i
    · rw [if_pos hj] at hq
      simp only [Option.some.injEq] at hq
      subst hq
      simp at hqpc
    · rw [if_neg hj] at hq
      exact hinv.probeListed j q c hq hqpc
  · intro k
    rw [(probeConfirmEffect_logs s i p cur).1]
    exact hinv.nonceChain k
  · intro j q n hq hqpc
    rw [probeConfirmEffect_procs] at hq
    rw [(probeConfirmEffect_logs s i p cur).1]
    by_cases hj : j = i
    · rw [if_pos hj] at hq
      simp only [Option.some.injEq] at hq
      subst hq
      simp at hqpc
    · rw [if_neg hj] at hq
      exact hinv.readyNonce j q n hq hqpc

theorem inv_postOk (s : GState) (i : Nat) (p : Proc) (n h : Nat)
    (hinv : Inv s) (hp : s.procs i = some p) (hpc : p.pc = .ready n) :
    Inv (postOkEffect s i p n h) := by
  have hpne : p.pc ≠ .start := by rw [hpc]; simp
  have hpcs : inCS p.pc := by rw [hpc]; trivial
  have hlockfree := hinv.csLockFree i p hp hpcs
  have hhead := hinv.csHead i p hp hpcs
  have hadm := hinv.csAdm i p hp hpcs
  have hnonce : n = nextNonceOf (s.lockLog p.key) :=
    hinv.readyNonce i p n hp hpc
  have hnoq : ∀ j q, s.procs j = some q → inCS q.pc → j ≠ i →
      q.key ≠ p.key := by
    intro j q hq hcs hji hkey
    have h1 := hinv.csHead j q hq hcs
    rw [hkey, hhead] at h1
    simp only [Option.some.injEq] at h1
    exact hji (hinv.ticketUnique j i q p hq hp (inCS_ne_start hcs) hpne h1.symm)
  refine ⟨?_, ?_, ?_, ?_, ?_, ?_, ?_, ?_, ?_, ?_, ?_, ?_, ?_, ?_, ?_, ?_,
    ?_, ?_, ?_, ?_, ?_, ?_, ?_⟩
  · intro k t ht
    rw [postOkEffect_entries] at ht
    rw [postOkEffect_next]
    by_cases hk : k = p.key
    · subst hk
      rw [if_pos rfl] at ht
      exact hinv.waitFresh _ t ht
    · rw [if_neg hk] at ht
      exact hinv.waitFresh k t ht
  · intro j q hq hne
    rw [postOkEffect_procs] at hq
    rw [postOkEffect_next]
    by_cases hj : j = i
    · rw [if_pos hj] at hq
      simp only [Option.some.injEq] at hq
      subst hq
      exact hinv.procFresh i p hp hpne
    · rw [if_neg hj] at hq
      exact hinv.procFresh j q hq hne
  · intro k r hr
    rw [postOkEffect_lockLog] at hr
    rw [postOkEffect_next]
    by_cases hk : k = p.key
    · subst hk
      rw [if_pos rfl] at hr
      rcases List.mem_cons.mp hr with h1 | h1
      · subst h1
        exact hinv.procFresh i p hp hpne
      · exact hinv.lockLogFresh _ r h1
    · rw [if_neg hk] at hr
      exact hinv.lockLogFresh k r hr
  · intro k t ht
    rw [(postOkEffect_logs s i p n h).1] at ht
    rw [postOkEffect_next]
    exact hinv.enqFresh k t ht
  · intro k t ht
    rw [(postOkEffect_logs s i p n h).2] at ht
    rw [postOkEffect_next]
    exact hinv.admFresh k t ht
  · intro j j' q q' hq hq' hne hne' heq
    rw [postOkEffect_procs] at hq hq'
    by_cases hj : j = i <;> by_cases hj' : j' = i
    · rw [hj, hj']
    · rw [if_pos hj] at hq
      rw [if_neg hj'] at hq'
      simp only [Option.some.injEq] at hq
      subst hq
      have h2 : p.ticket = q'.ticket := heq
      rw [hj]
      exact hinv.ticketUnique i j' p q' hp hq' hpne hne' h2
    · rw [if_pos hj'] at hq'
      rw [if_neg hj] at hq
      simp only [Option.some.injEq] at hq'
      subst hq'
      have h2 : q.ticket = p.ticket := heq
      rw [hj']
      exact hinv.ticketUnique j i q p hq hp hne hpne h2
    · rw [if_neg hj] at hq
      rw [if_neg hj'] at hq'
      exact hinv.ticketUnique j j' q q' hq hq' hne hne' heq
  · intro k
    rw [postOkEffect_entries]
    by_cases hk : k = p.key
    · subst hk
      rw [if_pos rfl]
      exact hinv.waitSorted _
    · rw [if_neg hk]
      exact hinv.waitSorted k
  · intro k
    rw [(postOkEffect_logs s i p n h).1]
    exact hinv.enqSorted k
  · intro k
    rw [(postOkEffect_logs s i p n h).2]
    exact hinv.admSorted k
  · intro k a w ha hw
    rw [(postOkEffect_logs s i p n h).2] at ha
    rw [postOkEffect_entries] at hw
    by_cases hk : k = p.key
    · subst hk
      rw [if_pos rfl] at hw
      exact hinv.admLeWait _ a w ha hw
    · rw [if_neg hk] at hw
      exact hinv.admLeWait k a w ha hw
  · intro k t ht
    rw [(postOkEffect_logs s i p n h).1] at ht
    rw [postOkEffect_entries, (postOkEffect_logs s i p n h).2]
    by_cases hk : k = p.key
    · subst hk
      rw [if_pos rfl]
      exact hinv.enqCover _ t ht
    · rw [if_neg hk]
      exact hinv.enqCover k t ht
  · intro k t ht
    rw [postOkEffect_entries] at ht
    rw [(postOkEffect_logs s i p n h).1]
    by_cases hk : k = p.key
    · subst hk
      rw [if_pos rfl] at ht
      exact hinv.waitCover _ t ht
    · rw [if_neg hk] at ht
      exact hinv.waitCover k t ht
  · intro j q hq hqpc
    rw [postOkEffect_procs] at hq
    rw [(postOkEffect_logs s i p n h).2]
    by_cases hj : j = i
    · rw [if_pos hj] at hq
      simp only [Option.some.injEq] at hq
      subst hq
      rcases hqpc with h1 | ⟨c, h1⟩ <;> simp at h1
    · rw [if_neg hj] at hq
      exact hinv.notInAdm j q hq hqpc
  · intro j q hq hcs
    rw [postOkEffect_procs] at hq
    rw [postOkEffect_entries]
    by_cases hj : j = i
    · rw [if_pos hj] at hq
      simp only [Option.some.injEq] at hq
      subst hq
      exact absurd hcs (by simp [inCS])
    · rw [if_neg hj] at hq
      have hk := hnoq j q hq hcs hj
      rw [if_neg hk]
      exact hinv.csLockFree j q hq hcs
  · intro j q hq hcs
    rw [postOkEffect_procs] at hq
    rw [postOkEffect_entries]
    by_cases hj : j = i
    · rw [if_pos hj] at hq
      simp only [Option.some.injEq] at hq
      subst hq
      exact absurd hcs (by simp [inCS])
    · rw [if_neg hj] at hq
      have hk := hnoq j q hq hcs hj
      rw [if_neg hk]
      exact hinv.csHead j q hq hcs
  · intro j q hq hcs
    rw [postOkEffect_procs] at hq
    rw [(postOkEffect_logs s i p n h).2]
    by_cases hj : j = i
    · rw [if_pos hj] at hq
      simp only [Option.some.injEq] at hq
      subst hq
      exact absurd hcs (by simp [inCS])
    · rw [if_neg hj] at hq
      exact hinv.csAdm j q hq hcs
  · intro k r hr
    rw [postOkEffect_entries] at hr ⊢
    by_cases hk : k = p.key
    · subst hk
      rw [if_pos rfl] at hr ⊢
      have hr' : some (⟨p.ticket, n, h⟩ : LockRec) = some r := hr
      simp only [Option.some.injEq] at hr'
      subst hr'
      exact hhead
    · rw [if_neg hk] at hr ⊢
      exact hinv.lockHead k r hr
  · intro k r hr
    rw [postOkEffect_entries] at hr
    rw [postOkEffect_lockLog]
    by_cases hk : k = p.key
    · subst hk
      rw [if_pos rfl] at hr ⊢
      have hr' : some (⟨p.ticket, n, h⟩ : LockRec) = some r := hr
      simp only [Option.some.injEq] at hr'
      subst hr'
      exact List.mem_cons_self _ _
    · rw [if_neg hk] at hr
      rw [if_neg hk]
      exact hinv.lockListed k r hr
  · intro k r hr
    rw [postOkEffect_lockLog] at hr
    rw [(postOkEffect_logs s i p n h).2]
    by_cases hk : k = p.key
    · subst hk
      rw [if_pos rfl] at hr
      rcases List.mem_cons.mp hr with h1 | h1
      · subst h1
        exact hadm
      · exact hinv.lockLogAdm _ r h1
    · rw [if_neg hk] at hr
      exact hinv.lockLogAdm k r hr
  · intro k r j q hr hq hne heq
    rw [postOkEffect_lockLog] at hr
    rw [postOkEffect_procs] at hq
    by_cases hj : j = i
    · rw [if_pos hj] at hq
      simp only [Option.some.injEq] at hq
      subst hq
      exact ⟨some h, rfl⟩
    · rw [if_neg hj] at hq
      by_cases hk : k = p.key
      · subst hk
        rw [if_pos rfl] at hr
        rcases List.mem_cons.mp hr with h1 | h1
        · subst h1
          exfalso
          exact hj (hinv.ticketUnique j i q p hq hp hne hpne heq)
        · exact hinv.lockLogDone _ r j q h1 hq hne heq
      · rw [if_neg hk] at hr
        exact hinv.lockLogDone k r j q hr hq hne heq
  · intro j q c hq hqpc
    rw [postOkEffect_procs] at hq
    rw [postOkEffect_lockLog]
    by_cases hj : j = i
    · rw [if_pos hj] at hq
      simp only [Option.some.injEq] at hq
      subst hq
      simp at hqpc
    · rw [if_neg hj] at hq
      have h2 := hinv.probeListed j q c hq hqpc
      by_cases hk : q.key = p.key
      · rw [hk]
        rw [if_pos rfl]
        rw [hk] at h2
        exact List.mem_cons_of_mem _ h2
      · rw [if_neg hk]
        exact h2
  · intro k
    rw [postOkEffect_lockLog]
    by_cases hk : k = p.key
    · subst hk
      rw [if_pos rfl]
      refine List.chain'_cons'.mpr ⟨?_, hinv.nonceChain _⟩
      intro y hy
      rw [hnonce]
      unfold nextNonceOf
      cases hL : (s.lockLog p.key).head? with
      | none => rw [hL] at hy; simp at hy
      | some r0 =>
        rw [hL] at hy
        simp only [Option.mem_def, Option.some.injEq] at hy
        subst hy
        simp
    · rw [if_neg hk]
      exact hinv.nonceChain k
  · intro j q n0 hq hqpc
    rw [postOkEffect_procs] at hq
    rw [postOkEffect_lockLog]
    by_cases hj : j = i
    · rw [if_pos hj] at hq
      simp only [Option.some.injEq] at hq
      subst hq
      simp at hqpc
    · rw [if_neg hj] at hq
      have hcs : inCS q.pc := by rw [hqpc]; trivial
      have hk := hnoq j q hq hcs hj
      rw [if_neg hk]
      exact hinv.readyNonce j q n0 hq hqpc

theorem inv_postFail (s : GState) (i : Nat) (p : Proc) (n : Nat)
    (hinv : Inv s) (hp : s.procs i = some p) (hpc : p.pc = .ready n) :
    Inv (postFailEffect s i p) := by
  have hpne : p.pc ≠ .start := by rw [hpc]; simp
  have hpcs : inCS p.pc := by rw [hpc]; trivial
  have hlockfree := hinv.csLockFree i p hp hpcs
  have hhead := hinv.csHead i p hp hpcs
  have hadm := hinv.csAdm i p hp hpcs
  have hnoq : ∀ j q, s.procs j = some q → inCS q.pc → j ≠ i →
      q.key ≠ p.key := by
    intro j q hq hcs hji hkey
    have h1 := hinv.csHead j q hq hcs
    rw [hkey, hhead] at h1
    simp only [Option.some.injEq] at h1
    exact hji (hinv.ticketUnique j i q p hq hp (inCS_ne_start hcs) hpne h1.symm)
  refine ⟨?_, ?_, ?_, ?_, ?_, ?_, ?_, ?_, ?_, ?_, ?_, ?_, ?_, ?_, ?_, ?_,
    ?_, ?_, ?_, ?_, ?_, ?_, ?_⟩
  · intro k t ht
    rw [postFailEffect_tq] at ht ⊢
    rw [retire_nextTicketId]
    by_cases hk : k = p.key
    · subst hk
      rw [retire_waiting] at ht
      exact hinv.waitFresh _ t (mem_filter_ne.mp ht).1
    · rw [retire_entries_other _ _ _ hk] at ht
      exact hinv.waitFresh k t ht
  · intro j q hq hne
    rw [postFailEffect_procs] at hq
    rw [postFailEffect_tq, retire_nextTicketId]
    by_cases hj : j = i
    · rw [if_pos hj] at hq
      simp only [Option.some.injEq] at hq
      subst hq
      exact hinv.procFresh i p hp hpne
    · rw [if_neg hj] at hq
      exact hinv.procFresh j q hq hne
  · intro k r hr
    rw [(postFailEffect_logs s i p).1] at hr
    rw [postFailEffect_tq, retire_nextTicketId]
    exact hinv.lockLogFresh k r hr
  · intro k t ht
    rw [(postFailEffect_logs s i p).2.1] at ht
    rw [postFailEffect_tq, retire_nextTicketId]
    exact hinv.enqFresh k t ht
  · intro k t ht
    rw [(postFailEffect_logs s i p).2.2] at ht
    rw [postFailEffect_tq, retire_nextTicketId]
    exact hinv.admFresh k t ht
  · intro j j' q q' hq hq' hne hne' heq
    rw [postFailEffect_procs] at hq hq'
    by_cases hj : j = i <;> by_cases hj' : j' = i
    · rw [hj, hj']
    · rw [if_pos hj] at hq
      rw [if_neg hj'] at hq'
      simp only [Option.some.injEq] at hq
      subst hq
      have h2 : p.ticket = q'.ticket := heq
      rw [hj]
      exact hinv.ticketUnique i j' p q' hp hq' hpne hne' h2
    · rw [if_pos hj'] at hq'
      rw [if_neg hj] at hq
      simp only [Option.some.injEq] at hq'
      subst hq'
      have h2 : q.ticket = p.ticket := heq
      rw [hj']
      exact hinv.ticketUnique j i q p hq hp hne hpne h2
    · rw [if_neg hj] at hq
      rw [if_neg hj'] at hq'
      exact hinv.ticketUnique j j' q q' hq hq' hne hne' heq
  · intro k
    rw [postFailEffect_tq]
    by_cases hk : k = p.key
    · subst hk
      rw [retire_waiting]
      exact List.Pairwise.sublist (List.filter_sublist _) (hinv.waitSorted _)
    · rw [retire_entries_other _ _ _ hk]
      exact hinv.waitSorted k
  · intro k
    rw [(postFailEffect_logs s i p).2.1]
    exact hinv.enqSorted k
  · intro k
    rw [(postFailEffect_logs s i p).2.2]
    exact hinv.admSorted k
  · intro k a w ha hw
    rw [(postFailEffect_logs s i p).2.2] at ha
    rw [postFailEffect_tq] at hw
    by_cases hk : k = p.key
    · subst hk
      rw [retire_waiting] at hw
      exact hinv.admLeWait _ a w ha (mem_filter_ne.mp hw).1
    · rw [retire_entries_other _ _ _ hk] at hw
      exact hinv.admLeWait k a w ha hw
  · intro k t ht
    rw [(postFailEffect_logs s i p).2.1] at ht
    rw [postFailEffect_tq, (postFailEffect_logs s i p).2.2]
    by_cases hk : k = p.key
    · subst hk
      rw [retire_waiting]
      rcases hinv.enqCover _ t ht with h2 | h2
      · by_cases htc : t = p.ticket
        · subst htc
          exact Or.inr hadm
        · exact Or.inl (mem_filter_ne.mpr ⟨h2, htc⟩)
      · exact Or.inr h2
    · rw [retire_entries_other _ _ _ hk]
      exact hinv.enqCover k t ht
  · intro k t ht
    rw [postFailEffect_tq] at ht
    rw [(postFailEffect_logs s i p).2.1]
    by_cases hk : k = p.key
    · subst hk
      rw [retire_waiting] at ht
      exact hinv.waitCover _ t (mem_filter_ne.mp ht).1
    · rw [retire_entries_other _ _ _ hk] at ht
      exact hinv.waitCover k t ht
  · intro j q hq hqpc
    rw [postFailEffect_procs] at hq
    rw [(postFailEffect_logs s i p).2.2]
    by_cases hj : j = i
    · rw [if_pos hj] at hq
      simp only [Option.some.injEq] at hq
      subst hq
      rcases hqpc with h1 | ⟨c, h1⟩ <;> simp at h1
    · rw [if_neg hj] at hq
      exact hinv.notInAdm j q hq hqpc
  · intro j q hq hcs
    rw [postFailEffect_procs] at hq
    rw [postFailEffect_tq]
    by_cases hj : j = i
    · rw [if_pos hj] at hq
      simp only [Option.some.injEq] at hq
      subst hq
      exact absurd hcs (by simp [inCS])
    · rw [if_neg hj] at hq
      have hk := hnoq j q hq hcs hj
      rw [retire_entries_other _ _ _ hk]
      exact hinv.csLockFree j q hq hcs
  · intro j q hq hcs
    rw [postFailEffect_procs] at hq
    rw [postFailEffect_tq]
    by_cases hj : j = i
    · rw [if_pos hj] at hq
      simp only [Option.some.injEq] at hq
      subst hq
      exact absurd hcs (by simp [inCS])
    · rw [if_neg hj] at hq
      have hk := hnoq j q hq hcs hj
      rw [retire_entries_other _ _ _ hk]
      exact hinv.csHead j q hq hcs
  · intro j q hq hcs
    rw [postFailEffect_procs] at hq
    rw [(postFailEffect_logs s i p).2.2]
    by_cases hj : j = i
    · rw [if_pos hj] at hq
      simp only [Option.some.injEq] at hq
      subst hq
      exact absurd hcs (by simp [inCS])
    · rw [if_neg hj] at hq
      exact hinv.csAdm j q hq hcs
  · intro k r hr
    rw [postFailEffect_tq] at hr ⊢
    by_cases hk : k = p.key
    · subst hk
      rw [retire_lock_none _ _ _ hlockfree] at hr
      simp at hr
    · rw [retire_entries_other _ _ _ hk] at hr ⊢
      exact hinv.lockHead k r hr
  · intro k r hr
    rw [postFailEffect_tq] at hr
    rw [(postFailEffect_logs s i p).1]
    by_cases hk : k = p.key
    · subst hk
      rw [retire_lock_none _ _ _ hlockfree] at hr
      simp at hr
    · rw [retire_entries_other _ _ _ hk] at hr
      exact hinv.lockListed k r hr
  · intro k r hr
    rw [(postFailEffect_logs s i p).1] at hr
    rw [(postFailEffect_logs s i p).2.2]
    exact hinv.lockLogAdm k r hr
  · intro k r j q hr hq hne heq
    rw [(postFailEffect_logs s i p).1] at hr
    rw [postFailEffect_procs] at hq
    by_cases hj : j = i
    · rw [if_pos hj] at hq
      simp only [Option.some.injEq] at hq
      subst hq
      exact ⟨none, rfl⟩
    · rw [if_neg hj] at hq
      exact hinv.lockLogDone k r j q hr hq hne heq
  · intro j q c hq hqpc
    rw [postFailEffect_procs] at hq
    rw [(postFailEffect_logs s i p).1]
    by_cases hj : j = i
    · rw [if_pos hj] at hq
      simp only [Option.some.injEq] at hq
      subst hq
      simp at hqpc
    · rw [if_neg hj] at hq
      exact hinv.probeListed j q c hq hqpc
  · intro k
    rw [(postFailEffect_logs s i p).1]
    exact hinv.nonceChain k
  · intro j q n0 hq hqpc
    rw [postFailEffect_procs] at hq
    rw [(postFailEffect_logs s i p).1]
    by_cases hj : j = i
    · rw [if_pos hj] at hq
      simp only [Option.some.injEq] at hq
      subst hq
      simp at hqpc
    · rw [if_neg hj] at hq
      exact hinv.readyNonce j q n0 hq hqpc

theorem inv_step {s s' : GState} (hinv : Inv s) (hstep : Step s s') :
    Inv s' := by
  cases hstep with
  | enqueue i p hp hpc => exact inv_enqueue s i p hinv hp hpc
  | grant i p hp hpc hlock hnext => exact inv_grant s i p hinv hp hpc hlock hnext
  | probeStart i p cur hp hpc hcur =>
    exact inv_probeStart s i p cur hinv hp hpc hcur
  | probeConfirm i p cur hp hpc hlisted =>
    exact inv_probeConfirm s i p cur hinv hp hpc hlisted
  | probeMiss i p cur hp hpc => exact inv_probeMiss s i p cur hinv hp hpc
  | getNonce i p resp hp hpc hresp =>
    exact inv_getNonce s i p _ hinv hp hpc
      (requestNonce_benign (s.lockLog p.key) resp hresp)
  | postOk i p n h hp hpc => exact inv_postOk s i p n h hinv hp hpc
  | postFail i p n hp hpc => exact inv_postFail s i p n hinv hp hpc

theorem inv_reachable {ks : Nat → Option Nat} {s : GState}
    (hs : Reachable ks s) : Inv s := by
  unfold Reachable at hs
  induction hs with
  | refl => exact inv_init ks
  | tail h1 h2 ih => exact inv_step ih h2

/-- Key assignment of the demonstration trace: two concurrent callers,
both on key 0. -/
def traceKs : Nat → Option Nat := fun i => if i < 2 then some 0 else none

/-- Demonstration trace, state 0: both callers before queueing. -/
def tr0 : GState := initState traceKs

/-- Caller 0 queues and receives ticket 0. -/
def tr1 : GState := enqueueEffect tr0 0 ⟨0, 0, .start⟩

/-- Caller 1 queues and receives ticket 1. -/
def tr2 : GState := enqueueEffect tr1 1 ⟨0, 0, .start⟩

/-- Caller 0 finds key 0 unlocked with its ticket next and is admitted. -/
def tr3 : GState := grantEffect tr2 0 ⟨0, 0, .polling⟩

/-- Caller 0's requestNonce returns (relayer hint path, empty history). -/
def tr4 : GState := nonceEffect tr3 0 ⟨0, 0, .admitted⟩
  (requestNonce (some ((tr3.lockLog 0).head?.map LockRec.nonce))
    (nextNonceOf (tr3.lockLog 0)))

/-- Caller 0's POST succeeds with handle 100; lockTransaction records it. -/
def tr5 : GState := postOkEffect tr4 0 ⟨0, 0, .ready 0⟩ 0 100

/-- Caller 1's poll attempt finds key 0 locked and reads the lock record. -/
def tr6 : GState := probeStartEffect tr5 1 ⟨0, 1, .polling⟩ ⟨0, 0, 100⟩

/-- The relayer confirms; caller 1's attempt unlocks and unqueues ticket 0. -/
def tr7 : GState := probeConfirmEffect tr6 1 ⟨0, 1, .probing ⟨0, 0, 100⟩⟩
  ⟨0, 0, 100⟩

/-- Caller 1's next poll attempt admits it. -/
def tr8 : GState := grantEffect tr7 1 ⟨0, 1, .polling⟩

/-- Caller 1's requestNonce returns 0 + 1 = 1 from the relayer hint. -/
def tr9 : GState := nonceEffect tr8 1 ⟨0, 1, .admitted⟩
  (requestNonce (some ((tr8.lockLog 0).head?.map LockRec.nonce))
    (nextNonceOf (tr8.lockLog 0)))

/-- Caller 1's POST succeeds with handle 101. -/
def tr10 : GState := postOkEffect tr9 1 ⟨0, 1, .ready 1⟩ 1 101

theorem trace_reach4 : Reachable traceKs tr4 := by
  have h1 : Step tr0 tr1 := Step.enqueue tr0 0 ⟨0, 0, .start⟩ (by decide) rfl
  have h2 : Step tr1 tr2 := Step.enqueue tr1 1 ⟨0, 0, .start⟩ (by decide) rfl
  have h3 : Step tr2 tr3 :=
    Step.grant tr2 0 ⟨0, 0, .polling⟩ (by decide) rfl (by decide) (by decide)
  have h4 : Step tr3 tr4 :=
    Step.getNonce tr3 0 ⟨0, 0, .admitted⟩
      (some ((tr3.lockLog 0).head?.map LockRec.nonce)) (by decide) rfl
      (Or.inr rfl)
  exact Relation.ReflTransGen.tail (Relation.ReflTransGen.tail
    (Relation.ReflTransGen.tail (Relation.ReflTransGen.tail
      Relation.ReflTransGen.refl h1) h2) h3) h4

theorem trace_reach : Reachable traceKs tr10 := by
  have h5 : Step tr4 tr5 :=
    Step.postOk tr4 0 ⟨0, 0, .ready 0⟩ 0 100 (by decide) rfl
  have h6 : Step tr5 tr6 :=
    Step.probeStart tr5 1 ⟨0, 1, .polling⟩ ⟨0, 0, 100⟩ (by decide) rfl
      (by decide)
  have h7 : Step tr6 tr7 :=
    Step.probeConfirm tr6 1 ⟨0, 1, .probing ⟨0, 0, 100⟩⟩ ⟨0, 0, 100⟩
      (by decide) rfl (by decide)
  have h8 : Step tr7 tr8 :=
    Step.grant tr7 1 ⟨0, 1, .polling⟩ (by decide) rfl (by decide) (by decide)
  have h9 : Step tr8 tr9 :=
    Step.getNonce tr8 1 ⟨0, 1, .admitted⟩
      (some ((tr8.lockLog 0).head?.map LockRec.nonce)) (by decide) rfl
      (Or.inr rfl)
  have h10 : Step tr9 tr10 :=
    Step.postOk tr9 1 ⟨0, 1, .ready 1⟩ 1 101 (by decide) rfl
  exact Relation.ReflTransGen.tail (Relation.ReflTransGen.tail
    (Relation.ReflTransGen.tail (Relation.ReflTransGen.tail
      (Relation.ReflTransGen.tail (Relation.ReflTransGen.tail
        trace_reach4 h5) h6) h7) h8) h9) h10

/-- C1: gapless nonce sequence.  In every reachable state of every
interleaving of concurrent executeSafeTx / executeTokenSafeTx callers, the
nonces recorded by successive lockTransaction calls on the same key
(s.lockLog k, newest lock first) satisfy n2 = n1 + 1 between each lock and
its predecessor; consequently the nonces over time are strictly increasing
with no repeats and no gaps. -/
theorem nonce_sequence_gapless (ks : Nat → Option Nat) (s : GState)
    (hs : Reachable ks s) (k : Nat) :
    List.Chain' (fun a b => a.nonce = b.nonce + 1) (s.lockLog k) ∧
    List.Pairwise (fun a b => b.nonce < a.nonce) (s.lockLog k) := by
  have hinv := inv_reachable hs
  refine ⟨hinv.nonceChain k, ?_⟩
  haveI : IsTrans LockRec (fun a b => b.nonce < a.nonce) :=
    ⟨fun a b c h1 h2 => lt_trans h2 h1⟩
  have hch : List.Chain' (fun a b : LockRec => b.nonce < a.nonce) (s.lockLog k) :=
    (hinv.nonceChain k).imp fun hab => by omega
  exact List.chain'_iff_pairwise.mp hch

/-- Witness for C1 on a concrete two-caller interleaving on key 0 (defined
below as tr0 … tr10): the recorded lock nonces, newest first, are
[1, 0] — a gapless chain. -/
theorem nonce_sequence_gapless_witness :
    List.Chain' (fun a b => a.nonce = b.nonce + 1) (tr10.lockLog 0) ∧
    tr10.lockLog 0 = [⟨1, 1, 101⟩, ⟨0, 0, 100⟩] :=
  ⟨(nonce_sequence_gapless traceKs tr10 trace_reach 0).1, by decide⟩

/-- C2: mutual exclusion.  In every reachable state of every interleaving:
at most one caller per key sits in the critical window between winning
head-and-unlocked and completing its POST (although the nonce request,
signing and the POST are suspension points inside that window); and while
a caller is in that window, its key's lock slot is empty and the caller
still holds the head ticket — so the ensuing lockTransaction meets the
precondition of lock and never overwrites or duplicates an active lock
(the lock slot being a single Option, a key never holds two lock records
at any observable instant). -/
theorem lock_mutual_exclusion (ks : Nat → Option Nat) (s : GState)
    (hs : Reachable ks s) :
    (∀ i j p q, s.procs i = some p → s.procs j = some q →
      inCS p.pc → inCS q.pc → p.key = q.key → i = j) ∧
    (∀ i p, s.procs i = some p → inCS p.pc →
      (s.tq.entries p.key).lock = none ∧
      (s.tq.entries p.key).waiting.head? = some p.ticket) := by
  have hinv := inv_reachable hs
  constructor
  · intro i j p q hp hq hpcs hqcs hkey
    have h1 := hinv.csHead i p hp hpcs
    have h2 := hinv.csHead j q hq hqcs
    rw [hkey, h2] at h1
    simp only [Option.some.injEq] at h1
    exact hinv.ticketUnique i j p q hp hq (inCS_ne_start hpcs)
      (inCS_ne_start hqcs) h1.symm
  · intro i p hp hcs
    exact ⟨hinv.csLockFree i p hp hcs, hinv.csHead i p hp hcs⟩

/-- Witness for C2 at the reachable state tr4, where caller 0 is inside
the critical window with nonce 0 in hand. -/
theorem lock_mutual_exclusion_witness :
    (tr4.tq.entries 0).lock = none ∧
    (tr4.tq.entries 0).waiting.head? = some 0 :=
  (lock_mutual_exclusion traceKs tr4 trace_reach4).2 0
    ⟨0, 0, .ready 0⟩ (by decide) trivial

/-- C3: FIFO admission.  In every reachable state of every interleaving
and for every key: the ghost enqueue history is strictly increasing (so
enqueue order coincides with ticket order), the ghost admission history is
strictly increasing (so tickets win head-and-unlocked in exactly ticket
order, regardless of activity on other keys), and whenever a ticket b has
been admitted, every ticket a enqueued before it on the same key was
already admitted — i.e. strictly earlier in the admission history. -/
theorem fifo_admission (ks : Nat → Option Nat) (s : GState)
    (hs : Reachable ks s) (k : Nat) :
    List.Pairwise (· < ·) (s.enqLog k) ∧
    List.Pairwise (· < ·) (s.admLog k) ∧
    (∀ a b, a ∈ s.enqLog k → b ∈ s.admLog k → a < b → a ∈ s.admLog k) := by
  have hinv := inv_reachable hs
  refine ⟨hinv.enqSorted k, hinv.admSorted k, ?_⟩
  intro a b ha hb hab
  rcases hinv.enqCover k a ha with h1 | h1
  · exfalso
    have := hinv.admLeWait k b a hb h1
    omega
  · exact h1

/-- Witness for C3 on the concrete trace: tickets 0 and 1 were enqueued in
that order on key 0 and admitted in that same order. -/
theorem fifo_admission_witness :
    tr10.enqLog 0 = [0, 1] ∧
    tr10.admLog 0 = [0, 1] ∧
    (0 : Nat) ∈ tr10.admLog 0 :=
  ⟨by decide, by decide,
   (fifo_admission traceKs tr10 trace_reach 0).2.2 0 1 (by decide) (by decide)
     (by decide)⟩

end CirclesCore
